import Mathlib

/-!
# CalciteAdapter: translation of a Calcite relational-algebra plan

Shallow embedding of `QueryEngine/CalciteAdapter.cpp`.

* A parsed `rapidjson::Value` is the inductive type `Json`.
* Every function of the source that can stop the process returns an `Outcome`:
  `ok` for a normal return, `error checkFailed` for a failed glog `CHECK`,
  `error assertFailed` for a violated `RAPIDJSON_ASSERT` precondition of a
  rapidjson accessor, `error undefinedBehavior` for an unchecked `std::vector`
  index outside the vector.
* `Value::GetString` returns a `const char*`, which every use takes as a NUL-terminated
  C string: a JSON string is read up to its first NUL character (`Json.cString`).
* The mutable members of the adapter object and the heap on which expression
  objects are allocated are passed explicitly (`State`).
* The expression classes (`Analyzer`, `Parser`) and the catalog are declared in
  other files of the repository; their constructors and lookups are parameters
  (`Engine`, `Catalog`). The plan classes are records of their constructor
  arguments.
-/

namespace CalciteAdapter

/-! ## rapidjson values -/

/-- A parsed JSON value (`rapidjson::Value`). An integer number carries its value
(rapidjson keeps integers from `-2^63` up to `2^64 - 1`); a number that rapidjson stores as
a double carries nothing, because the translator never reads it. -/
inductive Json where
  | null
  | bool (b : Bool)
  | int (v : Int)
  | real
  | str (s : String)
  | arr (elems : List Json)
  | obj (members : List (String × Json))

/-- The ways in which a piece of the translator does not return normally. -/
inductive Failure where
  /-- a glog `CHECK` failed: the process is terminated -/
  | checkFailed
  /-- a `RAPIDJSON_ASSERT` precondition of a rapidjson accessor is violated -/
  | assertFailed
  /-- an unchecked `std::vector::operator[]` outside the vector -/
  | undefinedBehavior
  deriving DecidableEq, Repr

/-- Result of running a piece of the translator: `ok` is a normal return. -/
abbrev Outcome (α : Type) : Type := Except Failure α

namespace Json

/-- `Value::FindMember`: the first member with the given name. -/
def FindMember (name : String) : List (String × Json) → Option Json
  | [] => none
  | (k, v) :: rest => if k = name then some v else FindMember name rest

/-- `Value::IsObject`. -/
def IsObject : Json → Bool
  | obj _ => true
  | _ => false

/-- `Value::IsArray`. -/
def IsArray : Json → Bool
  | arr _ => true
  | _ => false

/-- `Value::IsInt`: an integer number that fits a signed 32-bit `int`. -/
def IsInt : Json → Bool
  | int v => decide (-2147483648 ≤ v ∧ v ≤ 2147483647)
  | _ => false

/-- `Value::HasMember`, as used behind an `IsObject()` test. -/
def HasMember (name : String) : Json → Bool
  | obj ms => (FindMember name ms).isSome
  | _ => false

/-- `Value::operator[](const char*)`: asserts that the value is an object holding the member. -/
def member (name : String) : Json → Outcome Json
  | obj ms =>
    match FindMember name ms with
    | some v => .ok v
    | none => .error .assertFailed
  | _ => .error .assertFailed

/-- The string a `const char*` denotes to a consumer that takes it as a NUL-terminated C
string: the characters before the first NUL character, the whole string when it holds
none. -/
def cString (s : String) : String :=
  ⟨s.data.takeWhile (fun c => c != Char.ofNat 0)⟩

/-- `Value::GetString`: asserts `IsString()` and returns a `const char*`. Every use in the
translator hands the pointer to a `std::string` parameter or compares it with a
`std::string` (`to_bin_op`, `to_sql_type`, `to_agg_kind`, `getMetadataForTable`,
`CHECK_EQ` on `relOp`), so what is read is the C string: a JSON string with an embedded
NUL character is cut there. -/
def GetString : Json → Outcome String
  | str s => .ok (cString s)
  | _ => .error .assertFailed

/-- `Value::GetInt`: asserts `IsInt()`. -/
def GetInt (j : Json) : Outcome Int :=
  match j with
  | int v => if j.IsInt then .ok v else .error .assertFailed
  | _ => .error .assertFailed

/-- `Value::GetInt64`: asserts that the number fits a signed 64-bit integer. -/
def GetInt64 : Json → Outcome Int
  | int v => if -9223372036854775808 ≤ v ∧ v ≤ 9223372036854775807 then .ok v else .error .assertFailed
  | _ => .error .assertFailed

/-- `Value::GetBool`: asserts `IsBool()`. -/
def GetBool : Json → Outcome Bool
  | bool b => .ok b
  | _ => .error .assertFailed

/-- `Value::Size`: asserts `IsArray()`. -/
def Size : Json → Outcome Nat
  | arr xs => .ok xs.length
  | _ => .error .assertFailed

/-- `Value::operator[](SizeType)`: asserts that the value is an array and the index is inside it. -/
def elem (i : Nat) : Json → Outcome Json
  | arr xs =>
    match xs.get? i with
    | some v => .ok v
    | none => .error .assertFailed
  | _ => .error .assertFailed

/-- A member of an object is smaller than the object. -/
theorem sizeOf_FindMember {name : String} {ms : List (String × Json)} {v : Json}
    (h : FindMember name ms = some v) : sizeOf v < sizeOf ms := by
  induction ms with
  | nil => simp [FindMember] at h
  | cons kv rest ih =>
    obtain ⟨k, w⟩ := kv
    simp only [FindMember] at h
    split at h
    · cases h; simp; omega
    · have := ih h; simp; omega

/-- The value returned by `operator[](const char*)` is smaller than the object. -/
theorem sizeOf_member {name : String} {j v : Json} (h : j.member name = .ok v) :
    sizeOf v < sizeOf j := by
  cases j <;> simp only [member] at h <;> try cases h
  rename_i ms
  split at h
  · rename_i w hw
    cases h
    have := sizeOf_FindMember hw
    simp; omega
  · cases h

/-- The value returned by `operator[](SizeType)` is smaller than the array. -/
theorem sizeOf_elem {i : Nat} {j v : Json} (h : j.elem i = .ok v) :
    sizeOf v < sizeOf j := by
  cases j <;> simp only [elem] at h <;> try cases h
  rename_i xs
  split at h
  · rename_i w hw
    cases h
    have := List.sizeOf_lt_of_mem (List.get?_mem hw)
    simp; omega
  · cases h

end Json

/-! ## Enumerations and descriptors declared in headers outside this file -/

/-- Modelled from the spec: comparison operators of `Shared/sqldefs.h`; only the
enumerators the translator names. -/
inductive SQLOps where
  | kEQ
  | kGT
  deriving DecidableEq, Repr

/-- Modelled from the spec: aggregate kinds of `Shared/sqldefs.h`; only the enumerator
the translator names. -/
inductive SQLAgg where
  | kCOUNT
  deriving DecidableEq, Repr

/-- Modelled from the spec: scalar types of `Shared/sqltypes.h`; only the enumerators
the translator names. -/
inductive SQLTypes where
  | kNULLT
  | kBIGINT
  deriving DecidableEq, Repr

/-- Modelled from the spec: operator qualifiers of `Shared/sqldefs.h`; only the
enumerator the translator names. -/
inductive SQLQualifier where
  | kONE
  deriving DecidableEq, Repr

/-- Modelled from the spec: statement kinds of `Shared/sqldefs.h`; only the enumerator
the translator names. -/
inductive SQLStmtType where
  | kSELECT
  deriving DecidableEq, Repr

/-- Modelled from the spec: the two-argument constructor `SQLTypeInfo(SQLTypes, bool)` of
`Shared/sqltypes.h`: a type name together with the nullability flag of the node's
type descriptor. -/
structure SQLTypeInfo where
  type : SQLTypes
  nullable : Bool
  deriving DecidableEq, Repr

/-- The field of `TableDescriptor` that the translator reads. -/
structure TableDescriptor where
  tableId : Int
  deriving DecidableEq, Repr

/-- The field of `ColumnDescriptor` that the translator reads. -/
structure ColumnDescriptor where
  columnType : SQLTypeInfo
  deriving DecidableEq, Repr

/-- The two lookups of `Catalog_Namespace::Catalog` that the translator calls; `none` is
the null pointer they return for an unknown table or column. -/
structure Catalog where
  getMetadataForTable : String → Option TableDescriptor
  getMetadataForColumn : Int → Int → Option ColumnDescriptor

/-- The expression constructors the translator calls. `Expr` is the type of
`std::shared_ptr<Analyzer::Expr>` values and `Heap` the store they are allocated on:
each constructor takes the store and returns the new pointer with the store after
the allocation. -/
structure Engine (Expr Heap : Type) where
  /-- `std::make_shared<Analyzer::ColumnVar>(type, table_id, column_id, rte_idx)` -/
  ColumnVar : SQLTypeInfo → Int → Int → Int → Heap → Expr × Heap
  /-- `std::make_shared<Analyzer::AggExpr>(type, kind, arg, is_distinct)`; `none` is `nullptr` -/
  AggExpr : SQLTypeInfo → SQLAgg → Option Expr → Bool → Heap → Expr × Heap
  /-- `Parser::OperExpr::normalize(optype, qual, left, right)` -/
  normalize : SQLOps → SQLQualifier → Expr → Expr → Heap → Expr × Heap
  /-- `Parser::IntLiteral::analyzeValue(intval)` -/
  analyzeValue : Int → Heap → Expr × Heap
  /-- `Analyzer::Expr::deep_copy()` -/
  deep_copy : Expr → Heap → Expr × Heap

/-- Modelled from the spec: `Analyzer::TargetEntry`, a (display-name, expression,
distinct-flag) triple; the fields are the three constructor arguments in order. -/
structure TargetEntry (Expr : Type) where
  resname : String
  expr : Expr
  distinct : Bool
  deriving DecidableEq

/-- Modelled from the spec: `Planner::Scan`, holding the constructor arguments in order:
target list, qualifier list, child plan (always `nullptr` here, left out together with
the constant cost `0.`), predicate list, table id and used-column list. -/
structure Scan (Expr : Type) where
  targetlist : List (TargetEntry Expr)
  quals : List Expr
  simple_quals : List Expr
  table_id : Int
  col_list : List Int
  deriving DecidableEq

/-- Modelled from the spec: `Planner::AggPlan`, holding the constructor arguments in
order (the constant cost `0.` left out): target list, child plan and group-by list. -/
structure AggPlan (Expr : Type) where
  targetlist : List (TargetEntry Expr)
  child : Scan Expr
  groupby_list : List Expr
  deriving DecidableEq

/-- Modelled from the spec: `Planner::RootPlan`, holding the constructor arguments in
order (the catalog reference left out): child plan, statement kind, table id,
auxiliary column list, and the two trailing integer arguments. -/
structure RootPlan (Expr : Type) where
  plan : AggPlan Expr
  stmt_type : SQLStmtType
  result_table_id : Int
  result_col_list : List Int
  limit : Int
  offset : Int
  deriving DecidableEq

/-! ## Token mappers -/

/-- `to_bin_op`: the statement after `CHECK(false)` is never reached. -/
def to_bin_op (bin_op_str : String) : Outcome SQLOps :=
  if bin_op_str = ">" then .ok .kGT else .error .checkFailed

/-- `to_agg_kind`. -/
def to_agg_kind (agg_name : String) : Outcome SQLAgg :=
  if agg_name = "COUNT" then .ok .kCOUNT else .error .checkFailed

/-- `to_sql_type`. -/
def to_sql_type (type_name : String) : Outcome SQLTypes :=
  if type_name = "BIGINT" then .ok .kBIGINT else .error .checkFailed

/-! ## The adapter object -/

/-- `std::set<int>::insert` on the ascending sequence of the set's elements. -/
def setInsert (x : Int) : List Int → List Int
  | [] => [x]
  | y :: ys => if x < y then x :: y :: ys else if x = y then y :: ys else y :: setInsert x ys

/-- Mutable state of a translation: the member `used_columns_` of the adapter (a
`std::set<int>`, kept as its ascending element sequence) and the expression heap. -/
structure State (Heap : Type) where
  used_columns_ : List Int
  heap : Heap


section Adapter

variable {Expr Heap : Type} (E : Engine Expr Heap) (cat : Catalog)

/-- `CalciteAdapter::translateColRef`. The ordinal is inserted into `used_columns_`
before the catalog lookup is checked. -/
def translateColRef (expr : Json) (td : TableDescriptor) (st : State Heap) :
    Outcome (Expr × State Heap) :=
  match expr.member "input" with
  | .error e => .error e
  | .ok input =>
    match input.GetInt with
    | .error e => .error e
    | .ok col_id =>
      let used := setInsert col_id st.used_columns_
      match cat.getMetadataForColumn td.tableId col_id with
      | none => .error .checkFailed
      | some cd =>
        let r := E.ColumnVar cd.columnType td.tableId col_id 0 st.heap
        .ok (r.1, ⟨used, r.2⟩)

/-- `CalciteAdapter::translateAggregate`. The two arguments of the `SQLTypeInfo`
constructor are evaluated left to right here; C++ leaves their order open, which only
decides which of two failures is met first. -/
def translateAggregate (expr : Json) (_td : TableDescriptor) (st : State Heap) :
    Outcome (Expr × State Heap) :=
  if !(expr.IsObject && expr.HasMember "type") then .error .checkFailed
  else
    match expr.member "type" with
    | .error e => .error e
    | .ok expr_type =>
      if !expr_type.IsObject then .error .checkFailed
      else
        match expr_type.member "type" with
        | .error e => .error e
        | .ok type_val =>
          match type_val.GetString with
          | .error e => .error e
          | .ok type_name =>
            match to_sql_type type_name with
            | .error e => .error e
            | .ok sql_type =>
              match expr_type.member "nullable" with
              | .error e => .error e
              | .ok nullable_val =>
                match nullable_val.GetBool with
                | .error e => .error e
                | .ok nullable =>
                  let agg_ti : SQLTypeInfo := ⟨sql_type, nullable⟩
                  match expr.member "agg" with
                  | .error e => .error e
                  | .ok agg_val =>
                    match agg_val.GetString with
                    | .error e => .error e
                    | .ok agg_name =>
                      match to_agg_kind agg_name with
                      | .error e => .error e
                      | .ok agg_kind =>
                        let r := E.AggExpr agg_ti agg_kind none false st.heap
                        .ok (r.1, ⟨st.used_columns_, r.2⟩)

/-- `CalciteAdapter::translateIntLiteral`. -/
def translateIntLiteral (expr : Json) (st : State Heap) : Outcome (Expr × State Heap) :=
  match expr.GetInt64 with
  | .error e => .error e
  | .ok intval =>
    let r := E.analyzeValue intval st.heap
    .ok (r.1, ⟨st.used_columns_, r.2⟩)

mutual

/-- `CalciteAdapter::getExprFromNode`. -/
def getExprFromNode (expr : Json) (td : TableDescriptor) (st : State Heap) :
    Outcome (Expr × State Heap) :=
  if expr.IsObject && expr.HasMember "op" then translateBinOp expr td st
  else if expr.IsObject && expr.HasMember "input" then translateColRef E cat expr td st
  else if expr.IsObject && expr.HasMember "agg" then translateAggregate E expr td st
  else if expr.IsInt then translateIntLiteral E expr st
  else .error .checkFailed
termination_by (sizeOf expr, 1)
decreasing_by
  all_goals exact Prod.Lex.right _ (by decide)

/-- `CalciteAdapter::translateBinOp`. The operator token is mapped when the call of
`normalize` is evaluated, after both operands have been translated. -/
def translateBinOp (expr : Json) (td : TableDescriptor) (st : State Heap) :
    Outcome (Expr × State Heap) :=
  match expr.member "op" with
  | .error e => .error e
  | .ok op_val =>
    match op_val.GetString with
    | .error e => .error e
    | .ok bin_op_str =>
      match hm : expr.member "operands" with
      | .error e => .error e
      | .ok operands =>
        if !operands.IsArray then .error .checkFailed
        else
          match operands.Size with
          | .error e => .error e
          | .ok size =>
            if size ≠ 2 then .error .checkFailed
            else
              match h0 : operands.elem 0 with
              | .error e => .error e
              | .ok operand0 =>
                match getExprFromNode operand0 td st with
                | .error e => .error e
                | .ok (lhs, st1) =>
                  match h1 : operands.elem 1 with
                  | .error e => .error e
                  | .ok operand1 =>
                    match getExprFromNode operand1 td st1 with
                    | .error e => .error e
                    | .ok (rhs, st2) =>
                      match to_bin_op bin_op_str with
                      | .error e => .error e
                      | .ok optype =>
                        let r := E.normalize optype .kONE lhs rhs st2.heap
                        .ok (r.1, ⟨st2.used_columns_, r.2⟩)
termination_by (sizeOf expr, 0)
decreasing_by
  all_goals apply Prod.Lex.left
  · exact Nat.lt_trans (Json.sizeOf_elem h0) (Json.sizeOf_member hm)
  · exact Nat.lt_trans (Json.sizeOf_elem h1) (Json.sizeOf_member hm)

end

/-- `CalciteAdapter::getUsedColumnList`: the elements of the set in ascending order,
appended one by one. -/
def getUsedColumnList (st : State Heap) : List Int :=
  st.used_columns_.foldl (fun used_column_list used_col => used_column_list ++ [used_col]) []

/-- `CalciteAdapter::getTableFromScanNode`. The name handed to `getMetadataForTable` is
the `const char*` of `table_info[2].GetString()`, converted to the `std::string` of the
parameter: the C string of element 2 (`Json.GetString`). -/
def getTableFromScanNode (scan_ra : Json) : Outcome TableDescriptor :=
  match scan_ra.member "table" with
  | .error e => .error e
  | .ok table_info =>
    if !table_info.IsArray then .error .checkFailed
    else
      match table_info.Size with
      | .error e => .error e
      | .ok size =>
        if size ≠ 3 then .error .checkFailed
        else
          match table_info.elem 2 with
          | .error e => .error e
          | .ok name_val =>
            match name_val.GetString with
            | .error e => .error e
            | .ok name =>
              match cat.getMetadataForTable name with
              | none => .error .checkFailed
              | some td => .ok td

/-- First loop of `collect_target_entries`: one translation per projection node, the
result pushed onto both vectors. -/
def collect_target_entries.projLoop (td : TableDescriptor) :
    List Json → List (TargetEntry Expr) → List (TargetEntry Expr) → State Heap →
    Outcome (List (TargetEntry Expr) × List (TargetEntry Expr) × State Heap)
  | [], agg_targets, scan_targets, st => .ok (agg_targets, scan_targets, st)
  | node :: rest, agg_targets, scan_targets, st =>
    match getExprFromNode E cat node td st with
    | .error e => .error e
    | .ok (proj_expr, st1) =>
      collect_target_entries.projLoop td rest
        (agg_targets ++ [⟨"", proj_expr, false⟩]) (scan_targets ++ [⟨"", proj_expr, false⟩]) st1

/-- Second loop of `collect_target_entries`: one translation per aggregate node, the
result pushed onto the aggregate vector. -/
def collect_target_entries.aggLoop (td : TableDescriptor) :
    List Json → List (TargetEntry Expr) → State Heap →
    Outcome (List (TargetEntry Expr) × State Heap)
  | [], agg_targets, st => .ok (agg_targets, st)
  | node :: rest, agg_targets, st =>
    match getExprFromNode E cat node td st with
    | .error e => .error e
    | .ok (agg_expr, st1) =>
      collect_target_entries.aggLoop td rest (agg_targets ++ [⟨"", agg_expr, false⟩]) st1

/-- `collect_target_entries`: the two vectors passed by reference are returned, first
`agg_targets`, then `scan_targets`. -/
def collect_target_entries (agg_targets scan_targets : List (TargetEntry Expr))
    (proj_nodes agg_nodes : Json) (st : State Heap) (td : TableDescriptor) :
    Outcome (List (TargetEntry Expr) × List (TargetEntry Expr) × State Heap) :=
  match proj_nodes with
  | .arr projs =>
    match collect_target_entries.projLoop E cat td projs agg_targets scan_targets st with
    | .error e => .error e
    | .ok (agg_targets1, scan_targets1, st1) =>
      match agg_nodes with
      | .arr aggs =>
        match collect_target_entries.aggLoop E cat td aggs agg_targets1 st1 with
        | .error e => .error e
        | .ok (agg_targets2, st2) => .ok (agg_targets2, scan_targets1, st2)
      | _ => .error .checkFailed
  | _ => .error .checkFailed

/-- `std::vector::operator[]` with an `int` index: the index is converted to `size_t`,
so a negative one is far beyond the end; outside the vector the access is unchecked. -/
def vectorAt {α : Type} (v : List α) (idx : Int) : Outcome α :=
  if idx < 0 then .error .undefinedBehavior
  else
    match v.get? idx.toNat with
    | some x => .ok x
    | none => .error .undefinedBehavior

/-- Loop of `collect_groupby`. -/
def collect_groupby.loop (agg_targets : List (TargetEntry Expr)) :
    List Json → List Expr → Heap → Outcome (List Expr × Heap)
  | [], groupby_exprs, heap => .ok (groupby_exprs, heap)
  | node :: rest, groupby_exprs, heap =>
    match node.GetInt with
    | .error e => .error e
    | .ok target_idx =>
      match vectorAt agg_targets target_idx with
      | .error e => .error e
      | .ok target =>
        let r := E.deep_copy target.expr heap
        collect_groupby.loop agg_targets rest (groupby_exprs ++ [r.1]) r.2

/-- `collect_groupby`: the list passed by reference is returned. -/
def collect_groupby (group_nodes : Json) (agg_targets : List (TargetEntry Expr))
    (groupby_exprs : List Expr) (heap : Heap) : Outcome (List Expr × Heap) :=
  match group_nodes with
  | .arr groups => collect_groupby.loop E agg_targets groups groupby_exprs heap
  | _ => .error .checkFailed

/-- Second half of `translate_query`, from `const auto& project_ra = rels[2];` on. -/
def translate_query.targets (rels : Json) (td : TableDescriptor) (filter_expr : Expr)
    (st1 : State Heap) : Outcome (RootPlan Expr × Heap) :=
  match rels.elem 2 with
  | .error e => .error e
  | .ok project_ra =>
    match project_ra.member "exprs" with
    | .error e => .error e
    | .ok proj_nodes =>
      match rels.elem 3 with
      | .error e => .error e
      | .ok agg_ra =>
        match agg_ra.member "aggs" with
        | .error e => .error e
        | .ok agg_nodes =>
          match agg_ra.member "group" with
          | .error e => .error e
          | .ok group_nodes =>
            if !proj_nodes.IsArray then .error .checkFailed
            else
              match collect_target_entries E cat [] [] proj_nodes agg_nodes st1 td with
              | .error e => .error e
              | .ok (agg_targets, scan_targets, st2) =>
                match collect_groupby E group_nodes agg_targets [] st2.heap with
                | .error e => .error e
                | .ok (groupby_exprs, heap3) =>
                  let q : List Expr := []
                  let sq : List Expr := [filter_expr]
                  let scan_plan : Scan Expr :=
                    ⟨scan_targets, q, sq, td.tableId, getUsedColumnList st2⟩
                  let agg_plan : AggPlan Expr := ⟨agg_targets, scan_plan, groupby_exprs⟩
                  let root_plan : RootPlan Expr := ⟨agg_plan, .kSELECT, td.tableId, [], 0, 0⟩
                  .ok (root_plan, heap3)

/-- `translate_query`. `parse` is `rapidjson::Document::Parse` (`none` when the document
has a parse error) and `heap` the expression heap at the call. The `CHECK_EQ` on `relOp`
compares `std::string("LogicalTableScan")` with the `const char*` of `GetString()`, that is
with the C string of the member (`Json.GetString`). The diagnostic print of the plan is
left out. -/
def translate_query (parse : String → Option Json) (query : String) (heap : Heap) :
    Outcome (RootPlan Expr × Heap) :=
  match parse query with
  | none => .error .checkFailed
  | some query_ast =>
    if !query_ast.IsObject then .error .checkFailed
    else
      match query_ast.member "rels" with
      | .error e => .error e
      | .ok rels =>
        if !rels.IsArray then .error .checkFailed
        else
          match rels.Size with
          | .error e => .error e
          | .ok size =>
            if size ≠ 4 then .error .checkFailed
            else
              match rels.elem 0 with
              | .error e => .error e
              | .ok scan_ra =>
                if !scan_ra.IsObject then .error .checkFailed
                else
                  match scan_ra.member "relOp" with
                  | .error e => .error e
                  | .ok relOp_val =>
                    match relOp_val.GetString with
                    | .error e => .error e
                    | .ok relOp =>
                      if relOp ≠ "LogicalTableScan" then .error .checkFailed
                      else
                        match rels.elem 1 with
                        | .error e => .error e
                        | .ok filter_ra =>
                          if !filter_ra.IsObject then .error .checkFailed
                          else
                            let calcite_adapter : State Heap := ⟨[], heap⟩
                            match getTableFromScanNode cat scan_ra with
                            | .error e => .error e
                            | .ok td =>
                              match filter_ra.member "condition" with
                              | .error e => .error e
                              | .ok condition =>
                                match getExprFromNode E cat condition td calcite_adapter with
                                | .error e => .error e
                                | .ok (filter_expr, st1) =>
                                  translate_query.targets E cat rels td filter_expr st1

/-! ## Reference definitions used to state the properties -/

/-- Every node of a list translated exactly once, in input order, each translation
starting from the state the previous one left. -/
def translateEach (td : TableDescriptor) :
    List Json → State Heap → Outcome (List Expr × State Heap)
  | [], st => .ok ([], st)
  | node :: rest, st =>
    match getExprFromNode E cat node td st with
    | .error e => .error e
    | .ok (expr, st1) =>
      match translateEach td rest st1 with
      | .error e => .error e
      | .ok (exprs, st2) => .ok (expr :: exprs, st2)

/-- The ordinals of the column-reference nodes that a translation of `expr` reaches: the
translation descends through the two operands of a binary-operator node and nowhere
else. -/
def columnRefs (expr : Json) : List Int :=
  if expr.IsObject && expr.HasMember "op" then
    match hm : expr.member "operands" with
    | .error _ => []
    | .ok operands =>
      match h0 : operands.elem 0 with
      | .error _ => []
      | .ok operand0 =>
        match h1 : operands.elem 1 with
        | .error _ => []
        | .ok operand1 => columnRefs operand0 ++ columnRefs operand1
  else if expr.IsObject && expr.HasMember "input" then
    match expr.member "input" with
    | .ok (.int col_id) => [col_id]
    | _ => []
  else []
termination_by sizeOf expr
decreasing_by
  · exact Nat.lt_trans (Json.sizeOf_elem h0) (Json.sizeOf_member hm)
  · exact Nat.lt_trans (Json.sizeOf_elem h1) (Json.sizeOf_member hm)

/-- One deep copy of every expression of a list, in order, each copy allocated on the
heap the previous one left. -/
def deepCopyEach : List Expr → Heap → List Expr × Heap
  | [], heap => ([], heap)
  | e :: es, heap =>
    ((E.deep_copy e heap).1 :: (deepCopyEach es (E.deep_copy e heap).2).1,
      (deepCopyEach es (E.deep_copy e heap).2).2)

end Adapter

/-! ## A sample engine and catalog -/

/-- Expression objects of the sample engine: every object records the address it was
allocated at and the arguments of the constructor call that built it. -/
inductive Term where
  | ColumnVar (addr : Nat) (ti : SQLTypeInfo) (table_id column_id rte_idx : Int)
  | AggExpr (addr : Nat) (ti : SQLTypeInfo) (agg : SQLAgg) (arg : Option Term) (distinct : Bool)
  | OperExpr (addr : Nat) (optype : SQLOps) (qual : SQLQualifier) (left right : Term)
  | IntLiteral (addr : Nat) (intval : Int)
  | Copy (addr : Nat) (original : Term)

/-- A sample engine: the heap is the next free address and every constructor allocates
one object there. -/
def sampleEngine : Engine Term Nat where
  ColumnVar := fun ti t c r heap => (.ColumnVar heap ti t c r, heap + 1)
  AggExpr := fun ti k a d heap => (.AggExpr heap ti k a d, heap + 1)
  normalize := fun o q l r heap => (.OperExpr heap o q l r, heap + 1)
  analyzeValue := fun v heap => (.IntLiteral heap v, heap + 1)
  deep_copy := fun e heap => (.Copy heap e, heap + 1)

/-- A sample catalog: one table `orders` with id 7 and BIGINT columns at ordinals 0 and 1. -/
def sampleCatalog : Catalog where
  getMetadataForTable := fun name => if name = "orders" then some ⟨7⟩ else none
  getMetadataForColumn := fun table_id column_id =>
    if table_id = 7 ∧ (column_id = 0 ∨ column_id = 1) then some ⟨⟨.kBIGINT, false⟩⟩ else none

/-- The descriptor of the table `orders` of the sample catalog. -/
def sampleTable : TableDescriptor := ⟨7⟩

/-- Sample projection nodes: the column reference to ordinal 1. -/
def sampleProjs : List Json := [.obj [("input", .int 1)]]

/-- Sample aggregate nodes: one COUNT of type BIGINT, not nullable. -/
def sampleAggs : List Json :=
  [.obj [("agg", .str "COUNT"),
    ("type", .obj [("type", .str "BIGINT"), ("nullable", .bool false)])]]

/-- A sample aggregate target list `[A, B, C]`: two column references and a COUNT. -/
def sampleTargets : List (TargetEntry Term) :=
  [⟨"", .ColumnVar 0 ⟨.kBIGINT, false⟩ 7 0 0, false⟩,
   ⟨"", .ColumnVar 1 ⟨.kBIGINT, false⟩ 7 1 0, false⟩,
   ⟨"", .AggExpr 2 ⟨.kBIGINT, false⟩ .kCOUNT none false, false⟩]

/-- The text of the sample query. -/
def sampleQuery : String :=
  "\x7b\"rels\":[\x7b\"relOp\":\"LogicalTableScan\",\"table\":[\"db\",\"public\",\"orders\"]\x7d,\x7b\"condition\":\x7b\"op\":\">\",\"operands\":[\x7b\"input\":0\x7d,5]\x7d\x7d,\x7b\"exprs\":[\x7b\"input\":1\x7d]\x7d,\x7b\"aggs\":[\x7b\"agg\":\"COUNT\",\"type\":\x7b\"type\":\"BIGINT\",\"nullable\":false\x7d\x7d],\"group\":[0]\x7d]\x7d"

/-- The document the sample query parses to. -/
def sampleDoc : Json :=
  .obj [("rels", .arr [
    .obj [("relOp", .str "LogicalTableScan"),
      ("table", .arr [.str "db", .str "public", .str "orders"])],
    .obj [("condition", .obj [("op", .str ">"),
      ("operands", .arr [.obj [("input", .int 0)], .int 5])])],
    .obj [("exprs", .arr [.obj [("input", .int 1)]])],
    .obj [("aggs", .arr [.obj [("agg", .str "COUNT"),
        ("type", .obj [("type", .str "BIGINT"), ("nullable", .bool false)])]]),
      ("group", .arr [.int 0])]])]

/-- The parser on the sample query; every other text is taken as malformed. -/
def sampleParse (query : String) : Option Json :=
  if query = sampleQuery then some sampleDoc else none

/-- The plan of the sample query: the objects are allocated in the order filter column,
filter literal, filter comparison, projected column, COUNT, group-by copy. -/
def samplePlan : RootPlan Term :=
  { plan :=
      { targetlist :=
          [⟨"", .ColumnVar 3 ⟨.kBIGINT, false⟩ 7 1 0, false⟩,
           ⟨"", .AggExpr 4 ⟨.kBIGINT, false⟩ .kCOUNT none false, false⟩]
        child :=
          { targetlist := [⟨"", .ColumnVar 3 ⟨.kBIGINT, false⟩ 7 1 0, false⟩]
            quals := []
            simple_quals :=
              [.OperExpr 2 .kGT .kONE (.ColumnVar 0 ⟨.kBIGINT, false⟩ 7 0 0) (.IntLiteral 1 5)]
            table_id := 7
            col_list := [0, 1] }
        groupby_list := [.Copy 5 (.ColumnVar 3 ⟨.kBIGINT, false⟩ 7 1 0)] }
    stmt_type := .kSELECT
    result_table_id := 7
    result_col_list := []
    limit := 0
    offset := 0 }

/-- The scan stage of the sample document. -/
def sampleScan : Json :=
  .obj [("relOp", .str "LogicalTableScan"),
    ("table", .arr [.str "db", .str "public", .str "orders"])]

/-- A document whose filter condition refers to the ordinal 9, which the sample catalog
does not have. -/
def unresolvedDoc : Json :=
  .obj [("rels", .arr [sampleScan,
    .obj [("condition", .obj [("input", .int 9)])],
    .obj [("exprs", .arr [])],
    .obj [("aggs", .arr []), ("group", .arr [])]])]

section Properties

variable {Expr Heap : Type} (E : Engine Expr Heap) (cat : Catalog)

/-! ### C strings -/

/-- The operator token read as a C string. -/
theorem cString_gt : Json.cString ">" = ">" := by decide

/-- The aggregate token read as a C string. -/
theorem cString_COUNT : Json.cString "COUNT" = "COUNT" := by decide

/-- The type token read as a C string. -/
theorem cString_BIGINT : Json.cString "BIGINT" = "BIGINT" := by decide

/-- The scan discriminator read as a C string. -/
theorem cString_LogicalTableScan : Json.cString "LogicalTableScan" = "LogicalTableScan" := by
  decide

/-- The sample table name read as a C string. -/
theorem cString_orders : Json.cString "orders" = "orders" := by decide

/-- One step of the dispatch of `getExprFromNode`. -/
theorem getExprFromNode_unfold (expr : Json) (td : TableDescriptor) (st : State Heap) :
    getExprFromNode E cat expr td st =
      if expr.IsObject && expr.HasMember "op" then translateBinOp E cat expr td st
      else if expr.IsObject && expr.HasMember "input" then translateColRef E cat expr td st
      else if expr.IsObject && expr.HasMember "agg" then translateAggregate E expr td st
      else if expr.IsInt then translateIntLiteral E expr st
      else .error .checkFailed := by
  rw [getExprFromNode]

/-! ### Target lists -/

/-- The first loop pushes the single translations of the nodes onto both vectors. -/
theorem projLoop_eq (td : TableDescriptor) (nodes : List Json)
    (agg_targets scan_targets : List (TargetEntry Expr)) (st : State Heap) :
    collect_target_entries.projLoop E cat td nodes agg_targets scan_targets st =
      match translateEach E cat td nodes st with
      | .error e => .error e
      | .ok (es, st1) =>
        .ok (agg_targets ++ es.map (fun e => ⟨"", e, false⟩),
          scan_targets ++ es.map (fun e => ⟨"", e, false⟩), st1) := by
  induction nodes generalizing agg_targets scan_targets st with
  | nil => simp [collect_target_entries.projLoop, translateEach]
  | cons node rest ih =>
    simp only [collect_target_entries.projLoop, translateEach]
    cases h : getExprFromNode E cat node td st with
    | error e => rfl
    | ok r =>
      obtain ⟨e, st1⟩ := r
      simp only [ih]
      cases h2 : translateEach E cat td rest st1 with
      | error e => rfl
      | ok r2 => simp

/-- The second loop pushes the single translations of the nodes onto the aggregate vector. -/
theorem aggLoop_eq (td : TableDescriptor) (nodes : List Json)
    (agg_targets : List (TargetEntry Expr)) (st : State Heap) :
    collect_target_entries.aggLoop E cat td nodes agg_targets st =
      match translateEach E cat td nodes st with
      | .error e => .error e
      | .ok (es, st1) => .ok (agg_targets ++ es.map (fun e => ⟨"", e, false⟩), st1) := by
  induction nodes generalizing agg_targets st with
  | nil => simp [collect_target_entries.aggLoop, translateEach]
  | cons node rest ih =>
    simp only [collect_target_entries.aggLoop, translateEach]
    cases h : getExprFromNode E cat node td st with
    | error e => rfl
    | ok r =>
      obtain ⟨e, st1⟩ := r
      simp only [ih]
      cases h2 : translateEach E cat td rest st1 with
      | error e => rfl
      | ok r2 => simp

/-- A successful run of `collect_target_entries` from empty vectors is one pass of single
translations over the projection nodes followed by one over the aggregate nodes. -/
theorem collect_target_entries_ok (projs aggs : List Json) (st : State Heap)
    (td : TableDescriptor) (agg_targets scan_targets : List (TargetEntry Expr))
    (st2 : State Heap)
    (h : collect_target_entries E cat [] [] (.arr projs) (.arr aggs) st td =
      .ok (agg_targets, scan_targets, st2)) :
    ∃ es as st1, translateEach E cat td projs st = .ok (es, st1) ∧
      translateEach E cat td aggs st1 = .ok (as, st2) ∧
      scan_targets = es.map (fun e => ⟨"", e, false⟩) ∧
      agg_targets = (es ++ as).map (fun e => ⟨"", e, false⟩) := by
  simp only [collect_target_entries, projLoop_eq, aggLoop_eq] at h
  cases h1 : translateEach E cat td projs st with
  | error e => simp [h1] at h
  | ok r1 =>
    obtain ⟨es, st1⟩ := r1
    simp only [h1] at h
    cases h2 : translateEach E cat td aggs st1 with
    | error e => simp [h2] at h
    | ok r2 =>
      obtain ⟨as, st2'⟩ := r2
      simp [h2] at h
      obtain ⟨ha, hs, hst⟩ := h
      subst hst
      exact ⟨es, as, st1, rfl, h2, hs.symm, by rw [← ha, List.map_append]⟩

/-- Translating a concatenation is translating the first part, then the second. -/
theorem translateEach_append (td : TableDescriptor) (xs ys : List Json) (st : State Heap) :
    translateEach E cat td (xs ++ ys) st =
      match translateEach E cat td xs st with
      | .error e => .error e
      | .ok (es, st1) =>
        match translateEach E cat td ys st1 with
        | .error e => .error e
        | .ok (fs, st2) => .ok (es ++ fs, st2) := by
  induction xs generalizing st with
  | nil =>
    simp only [List.nil_append, translateEach]
    cases translateEach E cat td ys st with
    | error e => rfl
    | ok r => simp
  | cons x xs ih =>
    simp only [List.cons_append]
    simp only [translateEach]
    cases h : getExprFromNode E cat x td st with
    | error e => rfl
    | ok r =>
      obtain ⟨e, st1⟩ := r
      simp only [ih]
      cases h1 : translateEach E cat td xs st1 with
      | error e => rfl
      | ok r1 =>
        obtain ⟨es, st2⟩ := r1
        simp only
        cases h2 : translateEach E cat td ys st2 with
        | error e => rfl
        | ok r2 => simp

/-- A successful pass yields one expression per node. -/
theorem translateEach_length (td : TableDescriptor) (xs : List Json) (st : State Heap)
    (es : List Expr) (st1 : State Heap) (h : translateEach E cat td xs st = .ok (es, st1)) :
    es.length = xs.length := by
  induction xs generalizing st es st1 with
  | nil =>
    simp only [translateEach, Except.ok.injEq, Prod.mk.injEq] at h
    simp [← h.1]
  | cons x xs ih =>
    simp only [translateEach] at h
    cases h1 : getExprFromNode E cat x td st with
    | error e => simp [h1] at h
    | ok r =>
      obtain ⟨e, st'⟩ := r
      simp only [h1] at h
      cases h2 : translateEach E cat td xs st' with
      | error e => simp [h2] at h
      | ok r2 =>
        obtain ⟨es', st''⟩ := r2
        simp [h2] at h
        rw [← h.1]
        simp [ih st' es' st'' h2]

/-- In a successful pass, the expression at index `i` is the result of translating node
`i` from the state left by the translations of the nodes before it. -/
theorem translateEach_get (td : TableDescriptor) (xs : List Json) (st : State Heap)
    (es : List Expr) (st1 : State Heap) (h : translateEach E cat td xs st = .ok (es, st1))
    (i : Nat) (hi : i < xs.length) :
    ∃ sti e sti', translateEach E cat td (xs.take i) st = .ok (es.take i, sti) ∧
      getExprFromNode E cat (xs.get ⟨i, hi⟩) td sti = .ok (e, sti') ∧
      es[i]? = some e := by
  induction xs generalizing st es st1 i with
  | nil => simp at hi
  | cons x xs ih =>
    simp only [translateEach] at h
    cases h1 : getExprFromNode E cat x td st with
    | error e => simp [h1] at h
    | ok r =>
      obtain ⟨e, st'⟩ := r
      simp only [h1] at h
      cases h2 : translateEach E cat td xs st' with
      | error e => simp [h2] at h
      | ok r2 =>
        obtain ⟨es', st''⟩ := r2
        simp [h2] at h
        obtain ⟨hes, hst⟩ := h
        subst hes
        cases i with
        | zero => exact ⟨st, e, st', by simp [translateEach], by simpa using h1, by simp⟩
        | succ j =>
          have hj : j < xs.length := by simpa using hi
          obtain ⟨sti, e', sti', ha, hb, hc⟩ := ih st' es' st'' h2 j hj
          refine ⟨sti, e', sti', ?_, ?_, ?_⟩
          · simp [translateEach, h1, ha]
          · simpa using hb
          · simpa using hc

/-- C1: when `collect_target_entries` succeeds from empty target lists, the run is one
single translation of every projection node and then of every aggregate node (the final
state is the one such a pass leaves, so no node is translated twice), and for every
index `i` below the number of projection nodes the scan entry `i` and the aggregate
entry `i` hold the same expression, the result of translating projection node `i` in
the state left by the translations of the nodes before it. -/
theorem collect_target_entries_shares_projections (projs aggs : List Json)
    (st : State Heap) (td : TableDescriptor)
    (agg_targets scan_targets : List (TargetEntry Expr)) (st2 : State Heap)
    (h : collect_target_entries E cat [] [] (.arr projs) (.arr aggs) st td =
      .ok (agg_targets, scan_targets, st2)) :
    (∃ es as, translateEach E cat td (projs ++ aggs) st = .ok (es ++ as, st2) ∧
      es.length = projs.length ∧ as.length = aggs.length) ∧
    ∀ (i : Nat) (hi : i < projs.length), ∃ sti e sti',
      (∃ before, translateEach E cat td (projs.take i) st = .ok (before, sti)) ∧
      getExprFromNode E cat (projs.get ⟨i, hi⟩) td sti = .ok (e, sti') ∧
      scan_targets[i]?.map (fun t => t.expr) = some e ∧
      agg_targets[i]?.map (fun t => t.expr) = some e := by
  obtain ⟨es, as, st1, hp, ha, hs, hag⟩ :=
    collect_target_entries_ok E cat projs aggs st td agg_targets scan_targets st2 h
  have hlen := translateEach_length E cat td projs st es st1 hp
  refine ⟨⟨es, as, ?_, hlen, translateEach_length E cat td aggs st1 as st2 ha⟩, ?_⟩
  · simp [translateEach_append, hp, ha]
  · intro i hi
    obtain ⟨sti, e, sti', hb, hg, he⟩ := translateEach_get E cat td projs st es st1 hp i hi
    refine ⟨sti, e, sti', ⟨_, hb⟩, hg, ?_, ?_⟩
    · simp [hs, he]
    · have hi2 : i < es.length := by omega
      rw [hag, List.getElem?_map, List.getElem?_append_left hi2, he]
      rfl

/-- C2: when `collect_target_entries` succeeds from empty target lists on `p` projection
nodes and `a` aggregate nodes, the scan list has `p` entries, the aggregate list has
`p + a` entries, entry `i < p` of both lists holds the translation of projection node
`i`, entry `p + j` of the aggregate list holds the translation of aggregate node `j`,
and every entry has the empty name and the flag false. -/
theorem collect_target_entries_layout (projs aggs : List Json)
    (st : State Heap) (td : TableDescriptor)
    (agg_targets scan_targets : List (TargetEntry Expr)) (st2 : State Heap)
    (h : collect_target_entries E cat [] [] (.arr projs) (.arr aggs) st td =
      .ok (agg_targets, scan_targets, st2)) :
    scan_targets.length = projs.length ∧
    agg_targets.length = projs.length + aggs.length ∧
    (∃ es as st1, translateEach E cat td projs st = .ok (es, st1) ∧
      translateEach E cat td aggs st1 = .ok (as, st2) ∧
      (∀ i, i < projs.length → ∃ e, es[i]? = some e ∧
        scan_targets[i]? = some ⟨"", e, false⟩ ∧ agg_targets[i]? = some ⟨"", e, false⟩) ∧
      (∀ j, j < aggs.length → ∃ e, as[j]? = some e ∧
        agg_targets[projs.length + j]? = some ⟨"", e, false⟩)) ∧
    (∀ t, t ∈ scan_targets ++ agg_targets → t.resname = "" ∧ t.distinct = false) := by
  obtain ⟨es, as, st1, hp, ha, hs, hag⟩ :=
    collect_target_entries_ok E cat projs aggs st td agg_targets scan_targets st2 h
  have hlen := translateEach_length E cat td projs st es st1 hp
  have hlen2 := translateEach_length E cat td aggs st1 as st2 ha
  refine ⟨by simp [hs, hlen], by simp [hag, hlen, hlen2], ⟨es, as, st1, hp, ha, ?_, ?_⟩, ?_⟩
  · intro i hi
    have hi2 : i < es.length := by omega
    refine ⟨es[i], by simp [hi2], ?_, ?_⟩
    · simp [hs, hi2]
    · simp [hag, List.getElem?_append_left, hi2]
  · intro j hj
    have hj2 : j < as.length := by omega
    refine ⟨as[j], by simp [hj2], ?_⟩
    rw [hag, ← hlen, List.map_append, List.getElem?_append_right (by simp)]
    simp [hj2]
  · intro t ht
    rw [hs, hag] at ht
    simp only [List.mem_append, List.mem_map] at ht
    rcases ht with ⟨e, _, rfl⟩ | ⟨e, _, rfl⟩ <;> exact ⟨rfl, rfl⟩

/-! ### Group-by resolution -/

/-- Reading a position that fits an `int` back from its JSON number. -/
theorem GetInt_natCast (g : Nat) (hg : g ≤ 2147483647) :
    (Json.int (g : Int)).GetInt = .ok (g : Int) := by
  have h : (-2147483648 : Int) ≤ (g : Int) ∧ (g : Int) ≤ 2147483647 := by omega
  simp [Json.GetInt, Json.IsInt, h]

/-- Indexing the vector with a position inside it. -/
theorem vectorAt_natCast {α : Type} (v : List α) (g : Nat) (x : α) (hx : v[g]? = some x) :
    vectorAt v (g : Int) = .ok x := by
  have h : ¬ ((g : Int) < 0) := by omega
  simp [vectorAt, h, hx]

/-- The loop of `collect_groupby` on positions inside the target list appends the deep
copies of the addressed expressions, in order. -/
theorem collect_groupby_loop_eq (agg_targets : List (TargetEntry Expr))
    (positions : List Nat) (groupby_exprs : List Expr) (heap : Heap)
    (hpos : ∀ g ∈ positions, g < agg_targets.length ∧ g ≤ 2147483647) :
    collect_groupby.loop E agg_targets (positions.map (fun g : Nat => Json.int (Int.ofNat g)))
        groupby_exprs heap =
      .ok (groupby_exprs ++
          (deepCopyEach E
            (positions.filterMap (fun g => agg_targets[g]?.map (fun t => t.expr))) heap).1,
        (deepCopyEach E
            (positions.filterMap (fun g => agg_targets[g]?.map (fun t => t.expr))) heap).2) := by
  induction positions generalizing groupby_exprs heap with
  | nil => simp [collect_groupby.loop, deepCopyEach]
  | cons g gs ih =>
    have hg := hpos g (List.mem_cons_self g gs)
    have hgs : ∀ g' ∈ gs, g' < agg_targets.length ∧ g' ≤ 2147483647 :=
      fun g' hg' => hpos g' (List.mem_cons_of_mem g hg')
    have hx : agg_targets[g]? = some agg_targets[g] := by simp [hg.1]
    simp only [List.map_cons, collect_groupby.loop, Int.ofNat_eq_coe, GetInt_natCast g hg.2,
      vectorAt_natCast agg_targets g _ hx]
    have ih2 := ih (groupby_exprs ++ [(E.deep_copy agg_targets[g].expr heap).1])
      (E.deep_copy agg_targets[g].expr heap).2 hgs
    simp only [Int.ofNat_eq_coe] at ih2
    rw [ih2]
    simp [List.filterMap_cons, hx, deepCopyEach]

/-- The addressed expressions, one per position. -/
theorem addressed_getElem (agg_targets : List (TargetEntry Expr)) (positions : List Nat)
    (hpos : ∀ g ∈ positions, g < agg_targets.length ∧ g ≤ 2147483647) (i : Nat) :
    (positions.filterMap (fun g => agg_targets[g]?.map (fun t => t.expr)))[i]? =
      positions[i]?.bind (fun g => agg_targets[g]?.map (fun t => t.expr)) := by
  induction positions generalizing i with
  | nil => simp
  | cons g gs ih =>
    have hg := hpos g (List.mem_cons_self g gs)
    have hgs : ∀ g' ∈ gs, g' < agg_targets.length ∧ g' ≤ 2147483647 :=
      fun g' hg' => hpos g' (List.mem_cons_of_mem g hg')
    have hx : agg_targets[g]? = some agg_targets[g] := by simp [hg.1]
    cases i with
    | zero => simp [List.filterMap_cons, hx]
    | succ j => simpa [List.filterMap_cons, hx] using ih hgs j

/-- The copies made by `deepCopyEach`, one per expression: copy `i` is made on the heap
left by the copies before it. -/
theorem deepCopyEach_getElem (es : List Expr) (heap : Heap) (i : Nat) :
    (deepCopyEach E es heap).1[i]? =
      es[i]?.map (fun e => (E.deep_copy e (deepCopyEach E (es.take i) heap).2).1) := by
  induction es generalizing heap i with
  | nil => simp [deepCopyEach]
  | cons e es ih =>
    cases i with
    | zero => simp [deepCopyEach]
    | succ j => simpa [deepCopyEach] using ih (E.deep_copy e heap).2 j

/-- The list built by `deepCopyEach` has one copy per expression. -/
theorem deepCopyEach_length (es : List Expr) (heap : Heap) :
    (deepCopyEach E es heap).1.length = es.length := by
  induction es generalizing heap with
  | nil => simp [deepCopyEach]
  | cons e es ih => simp [deepCopyEach, ih]

/-- C3: for positions that all lie inside the aggregate target list, `collect_groupby`
started from an empty group-by list returns exactly one expression per position, in the
order of the positions, and element `i` is the deep copy of the expression of the target
entry at position `i` of the input, made on the heap left by the copies before it. -/
theorem collect_groupby_deep_copies (agg_targets : List (TargetEntry Expr))
    (positions : List Nat) (heap : Heap)
    (hpos : ∀ g ∈ positions, g < agg_targets.length ∧ g ≤ 2147483647) :
    ∃ exprs groupby_exprs heap1,
      positions.map (fun g => agg_targets[g]?.map (fun t => t.expr)) = exprs.map some ∧
      collect_groupby E (.arr (positions.map (fun g : Nat => Json.int (Int.ofNat g)))) agg_targets []
        heap = .ok (groupby_exprs, heap1) ∧
      (groupby_exprs, heap1) = deepCopyEach E exprs heap ∧
      groupby_exprs.length = positions.length ∧
      ∀ i, i < positions.length → ∃ g t, positions[i]? = some g ∧ agg_targets[g]? = some t ∧
        groupby_exprs[i]? =
          some (E.deep_copy t.expr (deepCopyEach E (exprs.take i) heap).2).1 := by
  have hall : ∀ i : Nat, (positions.filterMap
      (fun g => agg_targets[g]?.map (fun t : TargetEntry Expr => t.expr)))[i]? =
      positions[i]?.bind (fun g => agg_targets[g]?.map (fun t : TargetEntry Expr => t.expr)) :=
    addressed_getElem agg_targets positions hpos
  have hmap : positions.map (fun g => agg_targets[g]?.map (fun t => t.expr)) =
      (positions.filterMap (fun g => agg_targets[g]?.map (fun t => t.expr))).map some := by
    apply List.ext_getElem?
    intro i
    rw [List.getElem?_map, List.getElem?_map, hall i]
    cases hp : positions[i]? with
    | none => simp
    | some g =>
      have hg := hpos g (List.getElem?_mem hp)
      simp [hg.1]
  have hlen : (positions.filterMap
      (fun g => agg_targets[g]?.map (fun t => t.expr))).length = positions.length := by
    have := congrArg List.length hmap
    simpa using this.symm
  refine ⟨_, _, _, hmap, ?_, rfl, ?_, ?_⟩
  · simp only [collect_groupby, collect_groupby_loop_eq E agg_targets positions [] heap hpos,
      List.nil_append]
  · simp [deepCopyEach_length, hlen]
  · intro i hi
    have hg := hpos positions[i] (List.getElem_mem hi)
    refine ⟨positions[i], agg_targets[positions[i]], by simp [hi], by simp [hg.1], ?_⟩
    rw [deepCopyEach_getElem, hall i]
    simp [hi, hg.1]

/-- Indexing the vector with an `int` outside it. -/
theorem vectorAt_outside {α : Type} (v : List α) (g : Int)
    (hg : g < 0 ∨ (v.length : Int) ≤ g) : vectorAt v g = .error .undefinedBehavior := by
  unfold vectorAt
  by_cases h : g < 0
  · simp [h]
  · have hlen : v.length ≤ g.toNat := by omega
    simp [h, List.getElem?_eq_none hlen]

/-- C4 (what the code does): when some position is negative or not below the length of
the aggregate target list, the loop of `collect_groupby` indexes the vector outside its
bounds without any check; the run ends in undefined behaviour, not in a failed `CHECK`. -/
theorem collect_groupby_out_of_bounds (agg_targets : List (TargetEntry Expr))
    (positions : List Int) (groupby_exprs : List Expr) (heap : Heap)
    (hint : ∀ g ∈ positions, -2147483648 ≤ g ∧ g ≤ 2147483647)
    (hbad : ∃ g ∈ positions, g < 0 ∨ (agg_targets.length : Int) ≤ g) :
    collect_groupby E (.arr (positions.map Json.int)) agg_targets groupby_exprs heap =
      .error .undefinedBehavior := by
  simp only [collect_groupby]
  induction positions generalizing groupby_exprs heap with
  | nil => simp at hbad
  | cons g gs ih =>
    have hg := hint g (List.mem_cons_self g gs)
    have hget : (Json.int g).GetInt = .ok g := by simp [Json.GetInt, Json.IsInt, hg]
    simp only [List.map_cons, collect_groupby.loop, hget]
    by_cases hout : g < 0 ∨ (agg_targets.length : Int) ≤ g
    · simp [vectorAt_outside agg_targets g hout]
    · have hin : ¬ (g < 0) ∧ g.toNat < agg_targets.length := by omega
      have hx : agg_targets[g.toNat]? = some agg_targets[g.toNat] := by simp [hin.2]
      have hv : vectorAt agg_targets g = .ok agg_targets[g.toNat] := by
        simp [vectorAt, hin.1, hx]
      simp only [hv]
      apply ih
      · exact fun g' hg' => hint g' (List.mem_cons_of_mem g hg')
      · obtain ⟨b, hb, hbo⟩ := hbad
        rcases List.mem_cons.mp hb with rfl | hb'
        · exact absurd hbo hout
        · exact ⟨b, hb', hbo⟩

/-! ### The used-column set -/

/-- Membership after `std::set::insert`. -/
theorem mem_setInsert (x j : Int) (l : List Int) : j ∈ setInsert x l ↔ j = x ∨ j ∈ l := by
  induction l with
  | nil => simp [setInsert]
  | cons y ys ih =>
    simp only [setInsert]
    split
    · simp
    · split
      · rename_i hxy
        simp only [List.mem_cons]
        constructor
        · intro h; exact Or.inr h
        · rintro (h | h)
          · exact Or.inl (h.trans hxy)
          · exact h
      · simp only [List.mem_cons, ih]
        constructor
        · rintro (h | h | h)
          · exact Or.inr (Or.inl h)
          · exact Or.inl h
          · exact Or.inr (Or.inr h)
        · rintro (h | h | h)
          · exact Or.inr (Or.inl h)
          · exact Or.inl h
          · exact Or.inr (Or.inr h)

/-- Inserting an element a second time changes nothing. -/
theorem setInsert_idem (x : Int) (l : List Int) :
    setInsert x (setInsert x l) = setInsert x l := by
  induction l with
  | nil => simp [setInsert]
  | cons y ys ih =>
    simp only [setInsert]
    split
    · simp [setInsert]
    · rename_i h1
      split
      · rename_i h2
        simp [setInsert, h1, h2]
      · rename_i h2
        simp [setInsert, h1, h2, ih]

/-- The element sequence of the set stays strictly ascending under `insert`. -/
theorem setInsert_pairwise (x : Int) (l : List Int) (h : l.Pairwise (· < ·)) :
    (setInsert x l).Pairwise (· < ·) := by
  induction l with
  | nil => simp [setInsert]
  | cons y ys ih =>
    rw [List.pairwise_cons] at h
    simp only [setInsert]
    split
    · rename_i hxy
      refine List.pairwise_cons.mpr ⟨?_, List.pairwise_cons.mpr h⟩
      intro z hz
      rcases List.mem_cons.mp hz with rfl | hz
      · exact hxy
      · exact lt_trans hxy (h.1 z hz)
    · rename_i h1
      split
      · exact List.pairwise_cons.mpr h
      · rename_i h2
        refine List.pairwise_cons.mpr ⟨?_, ih h.2⟩
        intro z hz
        rcases (mem_setInsert x z ys).mp hz with rfl | hz
        · omega
        · exact h.1 z hz

/-- `getUsedColumnList` returns the element sequence of the set. -/
theorem getUsedColumnList_eq (st : State Heap) : getUsedColumnList st = st.used_columns_ := by
  have h : ∀ (l acc : List Int),
      l.foldl (fun used_column_list used_col => used_column_list ++ [used_col]) acc =
        acc ++ l := by
    intro l
    induction l with
    | nil => simp
    | cons x xs ih => intro acc; simp [ih]
  simp [getUsedColumnList, h]

/-- Translating a column reference whose ordinal is an `int` that the catalog resolves. -/
theorem translateColRef_ok (ms : List (String × Json)) (i : Int) (td : TableDescriptor)
    (cd : ColumnDescriptor) (st : State Heap)
    (hm : Json.FindMember "input" ms = some (.int i))
    (hint : -2147483648 ≤ i ∧ i ≤ 2147483647)
    (hcol : cat.getMetadataForColumn td.tableId i = some cd) :
    translateColRef E cat (.obj ms) td st =
      .ok ((E.ColumnVar cd.columnType td.tableId i 0 st.heap).1,
        ⟨setInsert i st.used_columns_, (E.ColumnVar cd.columnType td.tableId i 0 st.heap).2⟩) := by
  simp [translateColRef, Json.member, hm, Json.GetInt, Json.IsInt, hint, hcol]

/-- C6: for an ordinal `i` that the catalog resolves in the table, translating the node
with `input` equal to `i` twice leaves the used-column set that translating it once leaves,
namely the prior set with `i` added, and `i` occurs exactly once in the list returned by
`getUsedColumnList`. -/
theorem translateColRef_idempotent_on_used_columns (i : Int) (td : TableDescriptor)
    (cd : ColumnDescriptor) (st : State Heap)
    (hint : -2147483648 ≤ i ∧ i ≤ 2147483647)
    (hcol : cat.getMetadataForColumn td.tableId i = some cd)
    (hset : st.used_columns_.Pairwise (· < ·)) :
    ∃ e1 st1 e2 st2,
      translateColRef E cat (.obj [("input", .int i)]) td st = .ok (e1, st1) ∧
      translateColRef E cat (.obj [("input", .int i)]) td st1 = .ok (e2, st2) ∧
      st2.used_columns_ = st1.used_columns_ ∧
      (∀ j, j ∈ st1.used_columns_ ↔ j = i ∨ j ∈ st.used_columns_) ∧
      st1.used_columns_.Pairwise (· < ·) ∧
      (getUsedColumnList st1).count i = 1 ∧
      (getUsedColumnList st2).count i = 1 := by
  have hm : Json.FindMember "input" [("input", Json.int i)] = some (.int i) := by
    simp [Json.FindMember]
  have hp := setInsert_pairwise i st.used_columns_ hset
  have hnodup : (setInsert i st.used_columns_).Nodup :=
    hp.imp (fun hab => ne_of_lt hab)
  have hmem : i ∈ setInsert i st.used_columns_ := (mem_setInsert i i _).mpr (Or.inl rfl)
  refine ⟨_, _, _, _, translateColRef_ok E cat _ i td cd st hm hint hcol,
    translateColRef_ok E cat _ i td cd _ hm hint hcol, ?_, ?_, hp, ?_, ?_⟩
  · exact setInsert_idem i st.used_columns_
  · exact fun j => mem_setInsert i j _
  · rw [getUsedColumnList_eq]
    exact List.count_eq_one_of_mem hnodup hmem
  · rw [getUsedColumnList_eq]
    simp only [setInsert_idem]
    exact List.count_eq_one_of_mem hnodup hmem

/-! ### Token mappers and dispatch -/

/-- C7: each token mapper accepts exactly one token, `to_bin_op` the token `>`,
`to_agg_kind` the token `COUNT` and `to_sql_type` the token `BIGINT`; on every other
string the mapper fails its `CHECK` and returns no value at all, in particular none of
the values written after the `CHECK`. -/
theorem token_mappers_accept_one_token (s : String) :
    (to_bin_op s = .ok .kGT ↔ s = ">") ∧
    (to_agg_kind s = .ok .kCOUNT ↔ s = "COUNT") ∧
    (to_sql_type s = .ok .kBIGINT ↔ s = "BIGINT") ∧
    (s ≠ ">" → to_bin_op s = .error .checkFailed ∧ ∀ v, to_bin_op s ≠ .ok v) ∧
    (s ≠ "COUNT" → to_agg_kind s = .error .checkFailed ∧ ∀ v, to_agg_kind s ≠ .ok v) ∧
    (s ≠ "BIGINT" → to_sql_type s = .error .checkFailed ∧ ∀ v, to_sql_type s ≠ .ok v) := by
  refine ⟨?_, ?_, ?_, ?_, ?_, ?_⟩
  · by_cases h : s = ">" <;> simp [to_bin_op, h]
  · by_cases h : s = "COUNT" <;> simp [to_agg_kind, h]
  · by_cases h : s = "BIGINT" <;> simp [to_sql_type, h]
  · intro h; simp [to_bin_op, h]
  · intro h; simp [to_agg_kind, h]
  · intro h; simp [to_sql_type, h]

/-- A bare JSON integer is translated when it fits an `int` and fails the final `CHECK`
of the dispatch otherwise. -/
theorem getExprFromNode_int (v : Int) (td : TableDescriptor) (st : State Heap) :
    getExprFromNode E cat (.int v) td st =
      if -2147483648 ≤ v ∧ v ≤ 2147483647 then
        .ok ((E.analyzeValue v st.heap).1, ⟨st.used_columns_, (E.analyzeValue v st.heap).2⟩)
      else .error .checkFailed := by
  rw [getExprFromNode]
  simp only [Json.IsObject, Json.IsInt, translateIntLiteral, Json.GetInt64]
  by_cases h : -2147483648 ≤ v ∧ v ≤ 2147483647
  · have h64 : -9223372036854775808 ≤ v ∧ v ≤ 9223372036854775807 := ⟨by omega, by omega⟩
    simp [h, h64]
  · simp [h]

/-- The integer-literal branch by range: for every integer `v` in the signed 32-bit range,
`getExprFromNode` on the bare JSON integer `v` returns `IntLiteral::analyzeValue(v)` and
leaves the used-column set unchanged; on a JSON integer outside that range it fails. -/
theorem getExprFromNode_int_literal (v : Int) (td : TableDescriptor) (st : State Heap) :
    (-2147483648 ≤ v ∧ v ≤ 2147483647 →
      ∃ st1, getExprFromNode E cat (.int v) td st = .ok ((E.analyzeValue v st.heap).1, st1) ∧
        st1.used_columns_ = st.used_columns_ ∧ st1.heap = (E.analyzeValue v st.heap).2) ∧
    (¬ (-2147483648 ≤ v ∧ v ≤ 2147483647) →
      getExprFromNode E cat (.int v) td st = .error .checkFailed) := by
  rw [getExprFromNode_int]
  constructor
  · intro h
    exact ⟨⟨st.used_columns_, (E.analyzeValue v st.heap).2⟩, by simp [h], rfl, rfl⟩
  · intro h
    simp [h]

/-- C9: the dispatch of `getExprFromNode` follows the priority operator, column
reference, aggregate, integer literal. An object with a member `op` is handed to
`translateBinOp` whatever else it holds; an object without `op` but with `input` is
handed to `translateColRef` even when it holds `agg`; an object with `agg` only is
handed to `translateAggregate`; a value that is neither an object with one of the three
markers nor an integer fails. -/
theorem getExprFromNode_dispatch (ms : List (String × Json)) (expr : Json)
    (td : TableDescriptor) (st : State Heap) :
    (Json.FindMember "op" ms ≠ none →
      getExprFromNode E cat (.obj ms) td st = translateBinOp E cat (.obj ms) td st) ∧
    (Json.FindMember "op" ms = none → Json.FindMember "input" ms ≠ none →
      getExprFromNode E cat (.obj ms) td st = translateColRef E cat (.obj ms) td st) ∧
    (Json.FindMember "op" ms = none → Json.FindMember "input" ms = none →
      Json.FindMember "agg" ms ≠ none →
      getExprFromNode E cat (.obj ms) td st = translateAggregate E (.obj ms) td st) ∧
    ((∀ ms', expr = .obj ms' → Json.FindMember "op" ms' = none ∧
        Json.FindMember "input" ms' = none ∧ Json.FindMember "agg" ms' = none) →
      (∀ v, expr ≠ .int v) →
      getExprFromNode E cat expr td st = .error .checkFailed) := by
  refine ⟨?_, ?_, ?_, ?_⟩
  · intro h
    rw [getExprFromNode]
    simp [Json.IsObject, Json.HasMember, Option.isSome_iff_ne_none, h]
  · intro h1 h2
    rw [getExprFromNode]
    simp [Json.IsObject, Json.HasMember, Option.isSome_iff_ne_none, h1, h2]
  · intro h1 h2 h3
    rw [getExprFromNode]
    simp [Json.IsObject, Json.HasMember, Option.isSome_iff_ne_none, h1, h2, h3]
  · intro hobj hint
    rw [getExprFromNode]
    cases expr with
    | obj ms' =>
      obtain ⟨h1, h2, h3⟩ := hobj ms' rfl
      simp [Json.IsObject, Json.HasMember, Json.IsInt, h1, h2, h3]
    | int v => exact absurd rfl (hint v)
    | _ => simp [Json.IsObject, Json.HasMember, Json.IsInt]

/-- The aggregate translation of a COUNT node of type BIGINT. -/
theorem translateAggregate_count (ms tms : List (String × Json)) (b : Bool)
    (td : TableDescriptor) (st : State Heap)
    (hagg : Json.FindMember "agg" ms = some (.str "COUNT"))
    (htype : Json.FindMember "type" ms = some (.obj tms))
    (ht : Json.FindMember "type" tms = some (.str "BIGINT"))
    (hn : Json.FindMember "nullable" tms = some (.bool b)) :
    translateAggregate E (.obj ms) td st =
      .ok ((E.AggExpr ⟨.kBIGINT, b⟩ .kCOUNT none false st.heap).1,
        ⟨st.used_columns_, (E.AggExpr ⟨.kBIGINT, b⟩ .kCOUNT none false st.heap).2⟩) := by
  simp [translateAggregate, Json.IsObject, Json.HasMember, Json.member, hagg, htype, ht, hn,
    Json.GetString, Json.GetBool, to_sql_type, to_agg_kind, cString_COUNT, cString_BIGINT]

/-- C10: an aggregate node whose `agg` is `COUNT` and whose `type` descriptor has type
`BIGINT` and nullability `b` is translated into the aggregate expression built from the
type BIGINT with flag `b`, the kind COUNT, no argument and the distinct flag false;
whatever else the node or its descriptor holds plays no part, one object is allocated
and the used-column set is unchanged. -/
theorem translateAggregate_count_bigint (ms tms : List (String × Json)) (b : Bool)
    (td : TableDescriptor) (st : State Heap)
    (hop : Json.FindMember "op" ms = none)
    (hinput : Json.FindMember "input" ms = none)
    (hagg : Json.FindMember "agg" ms = some (.str "COUNT"))
    (htype : Json.FindMember "type" ms = some (.obj tms))
    (ht : Json.FindMember "type" tms = some (.str "BIGINT"))
    (hn : Json.FindMember "nullable" tms = some (.bool b)) :
    ∃ st1,
      getExprFromNode E cat (.obj ms) td st =
        .ok ((E.AggExpr ⟨.kBIGINT, b⟩ .kCOUNT none false st.heap).1, st1) ∧
      translateAggregate E (.obj ms) td st =
        .ok ((E.AggExpr ⟨.kBIGINT, b⟩ .kCOUNT none false st.heap).1, st1) ∧
      st1.used_columns_ = st.used_columns_ ∧
      st1.heap = (E.AggExpr ⟨.kBIGINT, b⟩ .kCOUNT none false st.heap).2 := by
  refine ⟨_, ?_, translateAggregate_count E ms tms b td st hagg htype ht hn, rfl, rfl⟩
  rw [getExprFromNode]
  simp only [Json.IsObject, Json.HasMember, hop, hinput, hagg]
  simpa using translateAggregate_count E ms tms b td st hagg htype ht hn

/-! ### Used columns of a translation -/

/-- Translating a binary-operator node: the shape a successful run has. -/
theorem translateBinOp_ok (expr : Json) (td : TableDescriptor) (st : State Heap)
    (e : Expr) (st' : State Heap) (h : translateBinOp E cat expr td st = .ok (e, st')) :
    ∃ op_val bin_op_str operands operand0 operand1 lhs st1 rhs st2 optype,
      expr.member "op" = .ok op_val ∧ op_val.GetString = .ok bin_op_str ∧
      expr.member "operands" = .ok operands ∧ operands.IsArray = true ∧
      operands.Size = .ok 2 ∧
      operands.elem 0 = .ok operand0 ∧ operands.elem 1 = .ok operand1 ∧
      getExprFromNode E cat operand0 td st = .ok (lhs, st1) ∧
      getExprFromNode E cat operand1 td st1 = .ok (rhs, st2) ∧
      to_bin_op bin_op_str = .ok optype ∧
      e = (E.normalize optype .kONE lhs rhs st2.heap).1 ∧
      st' = ⟨st2.used_columns_, (E.normalize optype .kONE lhs rhs st2.heap).2⟩ := by
  rw [translateBinOp] at h
  split at h
  · cases h
  · rename_i op_val hop
    split at h
    · cases h
    · rename_i bin_op_str hstr
      split at h
      · cases h
      · rename_i operands hm
        split at h
        · cases h
        · rename_i harr
          split at h
          · cases h
          · rename_i size hsize
            split at h
            · cases h
            · rename_i hsz
              split at h
              · cases h
              · rename_i operand0 h0
                split at h
                · cases h
                · rename_i lhs st1 hl
                  split at h
                  · cases h
                  · rename_i operand1 h1
                    split at h
                    · cases h
                    · rename_i rhs st2 hr
                      split at h
                      · cases h
                      · rename_i optype hopt
                        simp only [Except.ok.injEq, Prod.mk.injEq] at h
                        simp only [ne_eq, Decidable.not_not] at hsz
                        subst hsz
                        refine ⟨op_val, bin_op_str, operands, operand0, operand1, lhs, st1,
                          rhs, st2, optype, hop, hstr, hm, ?_, hsize, h0, h1, hl, hr, hopt,
                          h.1.symm, h.2.symm⟩
                        simpa using harr

/-- Translating a column reference: the shape a successful run has. -/
theorem translateColRef_inv (expr : Json) (td : TableDescriptor) (st : State Heap)
    (e : Expr) (st' : State Heap) (h : translateColRef E cat expr td st = .ok (e, st')) :
    ∃ col_id cd, expr.member "input" = .ok (.int col_id) ∧
      (-2147483648 ≤ col_id ∧ col_id ≤ 2147483647) ∧
      cat.getMetadataForColumn td.tableId col_id = some cd ∧
      e = (E.ColumnVar cd.columnType td.tableId col_id 0 st.heap).1 ∧
      st' = ⟨setInsert col_id st.used_columns_,
        (E.ColumnVar cd.columnType td.tableId col_id 0 st.heap).2⟩ := by
  unfold translateColRef at h
  split at h
  · cases h
  · rename_i input hin
    split at h
    · cases h
    · rename_i col_id hget
      split at h
      · cases h
      · rename_i cd hcd
        simp only [Except.ok.injEq, Prod.mk.injEq] at h
        have hv : input = .int col_id ∧ (-2147483648 ≤ col_id ∧ col_id ≤ 2147483647) := by
          cases input <;> simp only [Json.GetInt] at hget <;> try cases hget
          rename_i v
          split at hget
          · rename_i hint
            cases hget
            exact ⟨rfl, by simpa [Json.IsInt] using hint⟩
          · cases hget
        exact ⟨col_id, cd, by rw [hin, hv.1], hv.2, hcd, h.1.symm, h.2.symm⟩

/-- An aggregate translation leaves the used-column set as it was. -/
theorem translateAggregate_used_columns (expr : Json) (td : TableDescriptor)
    (st : State Heap) (e : Expr) (st' : State Heap)
    (h : translateAggregate E expr td st = .ok (e, st')) :
    st'.used_columns_ = st.used_columns_ := by
  unfold translateAggregate at h
  repeat' (split at h <;> try cases h)
  rfl

/-- A literal translation leaves the used-column set as it was. -/
theorem translateIntLiteral_used_columns (expr : Json) (st : State Heap) (e : Expr)
    (st' : State Heap) (h : translateIntLiteral E expr st = .ok (e, st')) :
    st'.used_columns_ = st.used_columns_ := by
  unfold translateIntLiteral at h
  repeat' (split at h <;> try cases h)
  rfl

/-- One step of `columnRefs`. -/
theorem columnRefs_unfold (expr : Json) :
    columnRefs expr =
      if expr.IsObject && expr.HasMember "op" then
        match expr.member "operands" with
        | .error _ => []
        | .ok operands =>
          match operands.elem 0 with
          | .error _ => []
          | .ok operand0 =>
            match operands.elem 1 with
            | .error _ => []
            | .ok operand1 => columnRefs operand0 ++ columnRefs operand1
      else if expr.IsObject && expr.HasMember "input" then
        match expr.member "input" with
        | .ok (.int col_id) => [col_id]
        | _ => []
      else [] := by
  rw [columnRefs]
  split
  · split <;> simp_all
    split <;> simp_all
    split <;> simp_all
  · rfl

/-- After a successful translation the used-column set holds what it held before and
the ordinals of the column references reached in the node, nothing else. -/
theorem getExprFromNode_used_columns (n : Nat) :
    ∀ (expr : Json), sizeOf expr < n → ∀ (td : TableDescriptor) (st : State Heap) (e : Expr)
      (st' : State Heap), getExprFromNode E cat expr td st = .ok (e, st') →
      ∀ j, j ∈ st'.used_columns_ ↔ j ∈ st.used_columns_ ∨ j ∈ columnRefs expr := by
  induction n with
  | zero => intro expr h; omega
  | succ n ih =>
    intro expr hsize td st e st' h j
    rw [getExprFromNode_unfold] at h
    rw [columnRefs_unfold]
    split at h
    · rename_i hop
      obtain ⟨op_val, bin_op_str, operands, operand0, operand1, lhs, st1, rhs, st2, optype,
        _, _, hm, _, _, h0, h1, hl, hr, _, _, hst⟩ := translateBinOp_ok E cat expr td st e st' h
      have hs0 : sizeOf operand0 < n := by
        have := Json.sizeOf_elem h0
        have := Json.sizeOf_member hm
        omega
      have hs1 : sizeOf operand1 < n := by
        have := Json.sizeOf_elem h1
        have := Json.sizeOf_member hm
        omega
      have i0 := ih operand0 hs0 td st lhs st1 hl j
      have i1 := ih operand1 hs1 td st1 rhs st2 hr j
      simp only [hop, if_true, hm, h0, h1, List.mem_append, hst, i1, i0]
      tauto
    · rename_i hop
      split at h
      · rename_i hin
        obtain ⟨col_id, cd, hmem, _, _, _, hst⟩ := translateColRef_inv E cat expr td st e st' h
        simp only [hop, hin, if_true, hmem, hst, mem_setInsert]
        simp only [Bool.false_eq_true, if_false, List.mem_singleton]
        tauto
      · rename_i hin
        split at h
        · have := translateAggregate_used_columns E expr td st e st' h
          simp [hop, hin, this]
        · split at h
          · have := translateIntLiteral_used_columns E expr st e st' h
            simp [hop, hin, this]
          · cases h

/-- An array of size 4 has four elements. -/
theorem Json.size_four (j : Json) (h : j.Size = .ok 4) : ∃ a b c d, j = .arr [a, b, c, d] := by
  cases j <;> simp only [Json.Size] at h <;> try cases h
  rename_i xs
  simp only [Except.ok.injEq] at h
  match xs, h with
  | [a, b, c, d], _ => exact ⟨a, b, c, d, rfl⟩

/-- Second half of `translate_query`: the shape a successful run has. -/
theorem translate_query_targets_inv (rels : Json) (td : TableDescriptor) (filter_expr : Expr)
    (st1 : State Heap) (plan : RootPlan Expr) (heap3 : Heap)
    (h : translate_query.targets E cat rels td filter_expr st1 = .ok (plan, heap3)) :
    ∃ project_ra agg_ra proj_nodes agg_nodes group_nodes agg_targets scan_targets st2
        groupby_exprs,
      rels.elem 2 = .ok project_ra ∧ rels.elem 3 = .ok agg_ra ∧
      project_ra.member "exprs" = .ok proj_nodes ∧
      agg_ra.member "aggs" = .ok agg_nodes ∧ agg_ra.member "group" = .ok group_nodes ∧
      collect_target_entries E cat [] [] proj_nodes agg_nodes st1 td =
        .ok (agg_targets, scan_targets, st2) ∧
      collect_groupby E group_nodes agg_targets [] st2.heap = .ok (groupby_exprs, heap3) ∧
      plan = ⟨⟨agg_targets, ⟨scan_targets, [], [filter_expr], td.tableId,
        getUsedColumnList st2⟩, groupby_exprs⟩, .kSELECT, td.tableId, [], 0, 0⟩ := by
  unfold translate_query.targets at h
  split at h
  · cases h
  · rename_i project_ra h2
    split at h
    · cases h
    · rename_i proj_nodes hp
      split at h
      · cases h
      · rename_i agg_ra h3
        split at h
        · cases h
        · rename_i agg_nodes ha
          split at h
          · cases h
          · rename_i group_nodes hg
            split at h
            · cases h
            · split at h
              · cases h
              · rename_i agg_targets scan_targets st2 hc
                split at h
                · cases h
                · rename_i groupby_exprs heap3' hgb
                  simp only [Except.ok.injEq, Prod.mk.injEq] at h
                  obtain ⟨hplan, hheap⟩ := h
                  subst hheap
                  exact ⟨project_ra, agg_ra, proj_nodes, agg_nodes, group_nodes, agg_targets,
                    scan_targets, st2, groupby_exprs, h2, h3, hp, ha, hg, hc, hgb,
                    hplan.symm⟩

/-- The whole of `translate_query`: the shape a successful run has. -/
theorem translate_query_inv (parse : String → Option Json) (query : String) (heap : Heap)
    (plan : RootPlan Expr) (heap3 : Heap)
    (h : translate_query E cat parse query heap = .ok (plan, heap3)) :
    ∃ query_ast scan_ra filter_ra project_ra agg_ra td condition filter_expr st1,
      parse query = some query_ast ∧ query_ast.IsObject = true ∧
      query_ast.member "rels" = .ok (.arr [scan_ra, filter_ra, project_ra, agg_ra]) ∧
      scan_ra.IsObject = true ∧ filter_ra.IsObject = true ∧
      (∃ relOp_val, scan_ra.member "relOp" = .ok relOp_val ∧
        relOp_val.GetString = .ok "LogicalTableScan") ∧
      getTableFromScanNode cat scan_ra = .ok td ∧
      filter_ra.member "condition" = .ok condition ∧
      getExprFromNode E cat condition td ⟨[], heap⟩ = .ok (filter_expr, st1) ∧
      translate_query.targets E cat (.arr [scan_ra, filter_ra, project_ra, agg_ra]) td
        filter_expr st1 = .ok (plan, heap3) := by
  unfold translate_query at h
  split at h
  · cases h
  · rename_i query_ast hparse
    split at h
    · cases h
    · rename_i hobj
      split at h
      · cases h
      · rename_i rels hrels
        split at h
        · cases h
        · split at h
          · cases h
          · rename_i size hsize
            split at h
            · cases h
            · rename_i hsz
              simp only [ne_eq, Decidable.not_not] at hsz
              subst hsz
              obtain ⟨a, b, c, d, rfl⟩ := Json.size_four rels hsize
              simp only [Json.elem, List.get?] at h
              split at h
              · cases h
              · rename_i hsobj
                split at h
                · cases h
                · rename_i relOp_val hrel
                  split at h
                  · cases h
                  · rename_i relOp hstr
                    split at h
                    · cases h
                    · rename_i hname
                      simp only [ne_eq, Decidable.not_not] at hname
                      subst hname
                      split at h
                      · cases h
                      · rename_i hfobj
                        split at h
                        · cases h
                        · rename_i td htd
                          split at h
                          · cases h
                          · rename_i condition hcond
                            split at h
                            · cases h
                            · rename_i filter_expr st1 hf
                              exact ⟨query_ast, a, b, c, d, td, condition, filter_expr, st1,
                                hparse, by simpa using hobj, hrels, by simpa using hsobj,
                                by simpa using hfobj, ⟨relOp_val, hrel, hstr⟩, htd, hcond, hf,
                                h⟩

/-- The used-column set after the translation of a node, whatever its size. -/
theorem getExprFromNode_used (expr : Json) (td : TableDescriptor) (st : State Heap)
    (e : Expr) (st' : State Heap) (h : getExprFromNode E cat expr td st = .ok (e, st'))
    (j : Int) : j ∈ st'.used_columns_ ↔ j ∈ st.used_columns_ ∨ j ∈ columnRefs expr :=
  getExprFromNode_used_columns E cat (sizeOf expr + 1) expr (Nat.lt_succ_self _) td st e st' h j

/-- The used-column set after a pass of single translations over a list of nodes. -/
theorem translateEach_used (td : TableDescriptor) (nodes : List Json) (st : State Heap)
    (es : List Expr) (st' : State Heap) (h : translateEach E cat td nodes st = .ok (es, st'))
    (j : Int) :
    j ∈ st'.used_columns_ ↔ j ∈ st.used_columns_ ∨ ∃ node ∈ nodes, j ∈ columnRefs node := by
  induction nodes generalizing st es st' with
  | nil =>
    simp only [translateEach, Except.ok.injEq, Prod.mk.injEq] at h
    simp [← h.2]
  | cons x xs ih =>
    simp only [translateEach] at h
    cases h1 : getExprFromNode E cat x td st with
    | error e => simp [h1] at h
    | ok r =>
      obtain ⟨e, st1⟩ := r
      simp only [h1] at h
      cases h2 : translateEach E cat td xs st1 with
      | error e => simp [h2] at h
      | ok r2 =>
        obtain ⟨es', st2⟩ := r2
        simp only [h2, Except.ok.injEq, Prod.mk.injEq] at h
        rw [← h.2, ih st1 es' st2 h2, getExprFromNode_used E cat x td st e st1 h1 j]
        simp only [List.mem_cons, exists_eq_or_imp]
        tauto

/-- A successful run of `collect_target_entries` was given two arrays. -/
theorem collect_target_entries_arrays (agg_targets scan_targets : List (TargetEntry Expr))
    (proj_nodes agg_nodes : Json) (st : State Heap) (td : TableDescriptor)
    (r : List (TargetEntry Expr) × List (TargetEntry Expr) × State Heap)
    (h : collect_target_entries E cat agg_targets scan_targets proj_nodes agg_nodes st td =
      .ok r) :
    ∃ projs aggs, proj_nodes = .arr projs ∧ agg_nodes = .arr aggs := by
  unfold collect_target_entries at h
  split at h
  · rename_i projs
    split at h
    · cases h
    · split at h
      · rename_i aggs
        exact ⟨projs, aggs, rfl, rfl⟩
      · cases h
  · cases h

/-- C5: when `translate_query` succeeds, the used-column list handed to the Scan plan
holds exactly the ordinals of the column references that translation reaches in the
filter condition, in the projection nodes and in the aggregate nodes, and no other
ordinal. -/
theorem translate_query_used_columns (parse : String → Option Json) (query : String)
    (heap : Heap) (plan : RootPlan Expr) (heap3 : Heap)
    (h : translate_query E cat parse query heap = .ok (plan, heap3)) :
    ∃ query_ast scan_ra filter_ra project_ra agg_ra condition projs aggs,
      parse query = some query_ast ∧
      query_ast.member "rels" = .ok (.arr [scan_ra, filter_ra, project_ra, agg_ra]) ∧
      filter_ra.member "condition" = .ok condition ∧
      project_ra.member "exprs" = .ok (.arr projs) ∧
      agg_ra.member "aggs" = .ok (.arr aggs) ∧
      ∀ j, j ∈ plan.plan.child.col_list ↔
        j ∈ columnRefs condition ∨ (∃ node ∈ projs, j ∈ columnRefs node) ∨
          ∃ node ∈ aggs, j ∈ columnRefs node := by
  obtain ⟨query_ast, scan_ra, filter_ra, project_ra, agg_ra, td, condition, filter_expr, st1,
    hparse, _, hrels, _, _, _, _, hcond, hf, ht⟩ :=
    translate_query_inv E cat parse query heap plan heap3 h
  obtain ⟨project_ra', agg_ra', proj_nodes, agg_nodes, group_nodes, agg_targets,
    scan_targets, st2, groupby_exprs, h2, h3, hp, ha, _, hc, _, hplan⟩ :=
    translate_query_targets_inv E cat _ td filter_expr st1 plan heap3 ht
  simp only [Json.elem, List.get?, Except.ok.injEq] at h2 h3
  subst h2 h3
  obtain ⟨projs, aggs, rfl, rfl⟩ :=
    collect_target_entries_arrays E cat [] [] proj_nodes agg_nodes st1 td _ hc
  obtain ⟨es, as, stp, htp, hta, _, _⟩ :=
    collect_target_entries_ok E cat projs aggs st1 td agg_targets scan_targets st2 hc
  refine ⟨query_ast, scan_ra, filter_ra, project_ra, agg_ra, condition, projs, aggs, hparse,
    hrels, hcond, hp, ha, ?_⟩
  intro j
  rw [hplan]
  simp only [getUsedColumnList_eq]
  rw [translateEach_used E cat td aggs stp as st2 hta j,
    translateEach_used E cat td projs st1 es stp htp j,
    getExprFromNode_used E cat condition td ⟨[], heap⟩ filter_expr st1 hf j]
  simp only [List.not_mem_nil, false_or]
  exact or_assoc

/-- The converse of `translate_query_inv`: a run whose stages all succeed returns the plan
assembled from their results. -/
theorem translate_query_of_stages (parse : String → Option Json) (query : String)
    (heap : Heap) (query_ast scan_ra filter_ra project_ra agg_ra relOp_val : Json)
    (td : TableDescriptor) (condition : Json) (filter_expr : Expr) (st1 : State Heap)
    (proj_nodes agg_nodes group_nodes : Json)
    (agg_targets scan_targets : List (TargetEntry Expr)) (st2 : State Heap)
    (groupby_exprs : List Expr) (heap3 : Heap)
    (hparse : parse query = some query_ast) (hobj : query_ast.IsObject = true)
    (hrels : query_ast.member "rels" = .ok (.arr [scan_ra, filter_ra, project_ra, agg_ra]))
    (hscan : scan_ra.IsObject = true)
    (hrel : scan_ra.member "relOp" = .ok relOp_val)
    (hstr : relOp_val.GetString = .ok "LogicalTableScan")
    (hfilter : filter_ra.IsObject = true)
    (htd : getTableFromScanNode cat scan_ra = .ok td)
    (hcond : filter_ra.member "condition" = .ok condition)
    (hfe : getExprFromNode E cat condition td ⟨[], heap⟩ = .ok (filter_expr, st1))
    (hp : project_ra.member "exprs" = .ok proj_nodes)
    (ha : agg_ra.member "aggs" = .ok agg_nodes)
    (hg : agg_ra.member "group" = .ok group_nodes)
    (hc : collect_target_entries E cat [] [] proj_nodes agg_nodes st1 td =
      .ok (agg_targets, scan_targets, st2))
    (hgb : collect_groupby E group_nodes agg_targets [] st2.heap = .ok (groupby_exprs, heap3)) :
    translate_query E cat parse query heap =
      .ok (⟨⟨agg_targets, ⟨scan_targets, [], [filter_expr], td.tableId,
        getUsedColumnList st2⟩, groupby_exprs⟩, .kSELECT, td.tableId, [], 0, 0⟩, heap3) := by
  obtain ⟨projs, aggs, rfl, rfl⟩ :=
    collect_target_entries_arrays E cat [] [] proj_nodes agg_nodes st1 td _ hc
  simp only [translate_query, translate_query.targets, hparse, hobj, hrels, Json.IsArray,
    Json.Size, Json.elem, List.get?, List.length, hscan, hrel, hstr, hfilter, htd, hcond, hfe,
    hp, ha, hg, hc, hgb]
  simp

/-! ### Column references and binary operators -/

/-- Translating a column reference whose ordinal the catalog does not resolve. -/
theorem translateColRef_unresolved (ms : List (String × Json)) (i : Int)
    (td : TableDescriptor) (st : State Heap)
    (hm : Json.FindMember "input" ms = some (.int i))
    (hint : -2147483648 ≤ i ∧ i ≤ 2147483647)
    (hcol : cat.getMetadataForColumn td.tableId i = none) :
    translateColRef E cat (.obj ms) td st = .error .checkFailed := by
  simp [translateColRef, Json.member, hm, Json.GetInt, Json.IsInt, hint, hcol]

/-- The dispatch hands a node with `input` and without `op` to `translateColRef`. -/
theorem getExprFromNode_input (ms : List (String × Json)) (v : Json) (td : TableDescriptor)
    (st : State Heap) (hop : Json.FindMember "op" ms = none)
    (hm : Json.FindMember "input" ms = some v) :
    getExprFromNode E cat (.obj ms) td st = translateColRef E cat (.obj ms) td st := by
  rw [getExprFromNode]
  simp [Json.IsObject, Json.HasMember, hop, hm]

/-- C11: for every table descriptor `td` and every `int` ordinal `i`, translating the
column-reference node with `input` equal to `i` succeeds if and only if the catalog has a
column with ordinal `i` in the table `td.tableId`; when it has, the result is the column
variable built from that column's type, `td.tableId`, the ordinal `i` and nesting level
0, and when it has not, the translation fails its `CHECK`. -/
theorem translateColRef_succeeds_iff_resolved (i : Int) (td : TableDescriptor)
    (st : State Heap) (hint : -2147483648 ≤ i ∧ i ≤ 2147483647) :
    ((∃ r, getExprFromNode E cat (.obj [("input", .int i)]) td st = .ok r) ↔
      ∃ cd, cat.getMetadataForColumn td.tableId i = some cd) ∧
    (∀ cd, cat.getMetadataForColumn td.tableId i = some cd →
      ∃ st1,
        getExprFromNode E cat (.obj [("input", .int i)]) td st =
          .ok ((E.ColumnVar cd.columnType td.tableId i 0 st.heap).1, st1) ∧
        translateColRef E cat (.obj [("input", .int i)]) td st =
          .ok ((E.ColumnVar cd.columnType td.tableId i 0 st.heap).1, st1)) ∧
    (cat.getMetadataForColumn td.tableId i = none →
      getExprFromNode E cat (.obj [("input", .int i)]) td st = .error .checkFailed ∧
      translateColRef E cat (.obj [("input", .int i)]) td st = .error .checkFailed) := by
  have hop : Json.FindMember "op" [("input", Json.int i)] = none := by
    simp [Json.FindMember]
  have hm : Json.FindMember "input" [("input", Json.int i)] = some (.int i) := by
    simp [Json.FindMember]
  have hd := getExprFromNode_input E cat _ _ td st hop hm
  refine ⟨?_, ?_, ?_⟩
  · constructor
    · rintro ⟨r, hr⟩
      cases hcol : cat.getMetadataForColumn td.tableId i with
      | none =>
        rw [hd, translateColRef_unresolved E cat _ i td st hm hint hcol] at hr
        cases hr
      | some cd => exact ⟨cd, rfl⟩
    · rintro ⟨cd, hcol⟩
      exact ⟨_, by rw [hd, translateColRef_ok E cat _ i td cd st hm hint hcol]⟩
  · intro cd hcol
    exact ⟨_, by rw [hd, translateColRef_ok E cat _ i td cd st hm hint hcol],
      translateColRef_ok E cat _ i td cd st hm hint hcol⟩
  · intro hcol
    exact ⟨by rw [hd, translateColRef_unresolved E cat _ i td st hm hint hcol],
      translateColRef_unresolved E cat _ i td st hm hint hcol⟩

/-- The body of `translateBinOp`, one step unfolded. -/
theorem translateBinOp_unfold (expr : Json) (td : TableDescriptor) (st : State Heap) :
    translateBinOp E cat expr td st =
      match expr.member "op" with
      | .error e => .error e
      | .ok op_val =>
        match op_val.GetString with
        | .error e => .error e
        | .ok bin_op_str =>
          match expr.member "operands" with
          | .error e => .error e
          | .ok operands =>
            if !operands.IsArray then .error .checkFailed
            else
              match operands.Size with
              | .error e => .error e
              | .ok size =>
                if size ≠ 2 then .error .checkFailed
                else
                  match operands.elem 0 with
                  | .error e => .error e
                  | .ok operand0 =>
                    match getExprFromNode E cat operand0 td st with
                    | .error e => .error e
                    | .ok (lhs, st1) =>
                      match operands.elem 1 with
                      | .error e => .error e
                      | .ok operand1 =>
                        match getExprFromNode E cat operand1 td st1 with
                        | .error e => .error e
                        | .ok (rhs, st2) =>
                          match to_bin_op bin_op_str with
                          | .error e => .error e
                          | .ok optype =>
                            .ok ((E.normalize optype .kONE lhs rhs st2.heap).1,
                              ⟨st2.used_columns_, (E.normalize optype .kONE lhs rhs st2.heap).2⟩) := by
  rw [translateBinOp]
  cases h1 : expr.member "op" with
  | error e => rfl
  | ok op_val =>
    simp only
    cases h2 : op_val.GetString with
    | error e => rfl
    | ok bin_op_str =>
      simp only
      split
      · rename_i e he
        simp only [he]
      · rename_i operands hm
        simp only [hm]
        split
        · rfl
        · cases h3 : operands.Size with
          | error e => rfl
          | ok size =>
            simp only
            split
            · rfl
            · split
              · rename_i e he
                simp only [he]
              · rename_i operand0 h0
                simp only [h0]
                cases h4 : getExprFromNode E cat operand0 td st with
                | error e => rfl
                | ok r =>
                  obtain ⟨lhs, st1⟩ := r
                  simp only
                  split
                  · rename_i e he
                    simp only [he]
                  · rename_i operand1 h1
                    simp only [h1]

/-- The dispatch hands a node with `op` to `translateBinOp`. -/
theorem getExprFromNode_op (ms : List (String × Json)) (v : Json) (td : TableDescriptor)
    (st : State Heap) (hop : Json.FindMember "op" ms = some v) :
    getExprFromNode E cat (.obj ms) td st = translateBinOp E cat (.obj ms) td st := by
  rw [getExprFromNode]
  simp [Json.IsObject, Json.HasMember, hop]

/-- A binary-operator node whose `operands` is not an array of two elements fails on its
operator token or on the two checks of `operands`, whatever the operands are. -/
theorem translateBinOp_bad_operands (ms : List (String × Json)) (op_val operands : Json)
    (td : TableDescriptor) (st : State Heap)
    (hop : Json.FindMember "op" ms = some op_val)
    (hm : Json.FindMember "operands" ms = some operands)
    (hbad : ∀ a b, operands ≠ .arr [a, b]) :
    translateBinOp E cat (.obj ms) td st =
      match op_val with
      | .str _ => .error .checkFailed
      | _ => .error .assertFailed := by
  rw [translateBinOp_unfold]
  simp only [Json.member, hop, hm]
  cases op_val with
  | str s =>
    simp only [Json.GetString]
    cases operands with
    | arr xs =>
      match xs, hbad with
      | [], _ => simp [Json.IsArray, Json.Size]
      | [_], _ => simp [Json.IsArray, Json.Size]
      | [a, b], hbad => exact absurd rfl (hbad a b)
      | _ :: _ :: _ :: _, _ => simp [Json.IsArray, Json.Size]
    | _ => simp [Json.IsArray]
  | _ => simp [Json.GetString]

/-- C12: a binary-operator node whose `operands` member is not an array of exactly two
elements fails, through `translateBinOp` and through the dispatch alike. The failure is
fixed by the operator member and the two checks of `operands` alone (a failed `CHECK` when
the operator is a string, the failed string access otherwise): the run stops there
whatever `operands` holds, whatever the state and the table, so no operand is translated
and no ordinal is inserted before it stops. -/
theorem translateBinOp_wrong_operand_count (ms : List (String × Json))
    (op_val operands : Json) (td : TableDescriptor) (st : State Heap)
    (hop : Json.FindMember "op" ms = some op_val)
    (hm : Json.FindMember "operands" ms = some operands)
    (hbad : ∀ a b, operands ≠ .arr [a, b]) :
    translateBinOp E cat (.obj ms) td st =
      (match op_val with
      | .str _ => .error .checkFailed
      | _ => .error .assertFailed) ∧
    getExprFromNode E cat (.obj ms) td st =
      (match op_val with
      | .str _ => .error .checkFailed
      | _ => .error .assertFailed) ∧
    ∃ f, getExprFromNode E cat (.obj ms) td st = .error f ∧ f ≠ .undefinedBehavior := by
  have h := translateBinOp_bad_operands E cat ms op_val operands td st hop hm hbad
  have hd := getExprFromNode_op E cat ms op_val td st hop
  refine ⟨h, by rw [hd]; exact h, ?_⟩
  rw [hd, h]
  cases op_val <;> exact ⟨_, rfl, by decide⟩

/-- The translation of a binary-operator node with two operands that both translate. -/
theorem translateBinOp_two_operands (ms : List (String × Json)) (bin_op_str : String)
    (operand0 operand1 : Json) (td : TableDescriptor) (st st1 st2 : State Heap)
    (lhs rhs : Expr)
    (hop : Json.FindMember "op" ms = some (.str bin_op_str))
    (hm : Json.FindMember "operands" ms = some (.arr [operand0, operand1]))
    (hl : getExprFromNode E cat operand0 td st = .ok (lhs, st1))
    (hr : getExprFromNode E cat operand1 td st1 = .ok (rhs, st2)) :
    translateBinOp E cat (.obj ms) td st =
      match to_bin_op (Json.cString bin_op_str) with
      | .error e => .error e
      | .ok optype =>
        .ok ((E.normalize optype .kONE lhs rhs st2.heap).1,
          ⟨st2.used_columns_, (E.normalize optype .kONE lhs rhs st2.heap).2⟩) := by
  rw [translateBinOp_unfold]
  simp only [Json.member, hop, hm, Json.GetString, Json.IsArray, Json.Size, Json.elem,
    List.get?, List.length, hl, hr]
  simp

/-- C13: a binary-operator node with the operator token `>` and exactly two operands whose
translations both succeed, the second in the state left by the first, is translated into
`OperExpr::normalize(kGT, kONE, L, R)` with `L` the translation of operand 0 and `R` the
translation of operand 1, in that order. -/
theorem translateBinOp_greater_than (ms : List (String × Json))
    (operand0 operand1 : Json) (td : TableDescriptor) (st st1 st2 : State Heap)
    (lhs rhs : Expr)
    (hop : Json.FindMember "op" ms = some (.str ">"))
    (hm : Json.FindMember "operands" ms = some (.arr [operand0, operand1]))
    (hl : getExprFromNode E cat operand0 td st = .ok (lhs, st1))
    (hr : getExprFromNode E cat operand1 td st1 = .ok (rhs, st2)) :
    ∃ st3,
      getExprFromNode E cat (.obj ms) td st =
        .ok ((E.normalize .kGT .kONE lhs rhs st2.heap).1, st3) ∧
      translateBinOp E cat (.obj ms) td st =
        .ok ((E.normalize .kGT .kONE lhs rhs st2.heap).1, st3) ∧
      st3.used_columns_ = st2.used_columns_ ∧
      st3.heap = (E.normalize .kGT .kONE lhs rhs st2.heap).2 := by
  have h := translateBinOp_two_operands E cat ms ">" operand0 operand1 td st st1 st2 lhs rhs
    hop hm hl hr
  simp only [to_bin_op, cString_gt, if_true] at h
  exact ⟨_, by rw [getExprFromNode_op E cat ms _ td st hop]; exact h, h, rfl, rfl⟩

/-! ### Shape of the plan document -/

/-- C14: when the top-level `rels` value of the document is an array whose length is not
4, `translate_query` fails the size `CHECK` and returns no plan. -/
theorem translate_query_wrong_stage_count (parse : String → Option Json) (query : String)
    (heap : Heap) (ms : List (String × Json)) (rels : List Json)
    (hparse : parse query = some (.obj ms))
    (hrels : Json.FindMember "rels" ms = some (.arr rels))
    (hlen : rels.length ≠ 4) :
    translate_query E cat parse query heap = .error .checkFailed ∧
    ∀ r, translate_query E cat parse query heap ≠ .ok r := by
  have h : translate_query E cat parse query heap = .error .checkFailed := by
    simp [translate_query, hparse, Json.IsObject, Json.member, hrels, Json.IsArray, Json.Size,
      hlen]
  refine ⟨h, ?_⟩
  intro r hr
  rw [h] at hr
  cases hr

/-- The members `condition`, `exprs`, `aggs` and `group` are found behind a leading
`relOp` member. -/
theorem FindMember_behind_relOp (v : Json) (ms : List (String × Json)) :
    Json.FindMember "condition" (("relOp", v) :: ms) = Json.FindMember "condition" ms ∧
    Json.FindMember "exprs" (("relOp", v) :: ms) = Json.FindMember "exprs" ms ∧
    Json.FindMember "aggs" (("relOp", v) :: ms) = Json.FindMember "aggs" ms ∧
    Json.FindMember "group" (("relOp", v) :: ms) = Json.FindMember "group" ms := by
  refine ⟨?_, ?_, ?_, ?_⟩ <;> simp [Json.FindMember]

/-- The discriminators of stages 1 to 3 are not read: a `relOp` member put in front of
these stages leaves the result of `translate_query` as it is. -/
theorem translate_query_later_tags_unread (parse parse' : String → Option Json)
    (query query' : String) (heap : Heap) (ms ms' : List (String × Json))
    (scan_ra : Json) (fm pm am : List (String × Json)) (v1 v2 v3 : Json)
    (hparse : parse query = some (.obj ms)) (hparse' : parse' query' = some (.obj ms'))
    (hrels : Json.FindMember "rels" ms = some (.arr [scan_ra, .obj fm, .obj pm, .obj am]))
    (hrels' : Json.FindMember "rels" ms' = some (.arr [scan_ra, .obj (("relOp", v1) :: fm),
      .obj (("relOp", v2) :: pm), .obj (("relOp", v3) :: am)])) :
    translate_query E cat parse' query' heap = translate_query E cat parse query heap := by
  simp only [translate_query, translate_query.targets, hparse, hparse', Json.IsObject,
    Json.member, hrels, hrels', Json.IsArray, Json.Size, Json.elem, List.get?, List.length,
    FindMember_behind_relOp]

/-- C17: on every input on which `translate_query` succeeds, the Root plan has the
statement kind SELECT, the id of the table resolved from the scan stage and an empty
auxiliary list; its child is the Aggregate plan holding the aggregate target list and the
group-by list; and the child of that plan is the Scan plan holding the table id, the scan
target list, a predicate list whose only element is the translated filter condition, an
empty second qualifier list and the used-column list. -/
theorem translate_query_plan_shape (parse : String → Option Json) (query : String)
    (heap : Heap) (plan : RootPlan Expr) (heap3 : Heap)
    (h : translate_query E cat parse query heap = .ok (plan, heap3)) :
    ∃ query_ast scan_ra filter_ra project_ra agg_ra td condition filter_expr st1
        proj_nodes agg_nodes group_nodes agg_targets scan_targets st2 groupby_exprs,
      parse query = some query_ast ∧
      query_ast.member "rels" = .ok (.arr [scan_ra, filter_ra, project_ra, agg_ra]) ∧
      getTableFromScanNode cat scan_ra = .ok td ∧
      filter_ra.member "condition" = .ok condition ∧
      getExprFromNode E cat condition td ⟨[], heap⟩ = .ok (filter_expr, st1) ∧
      project_ra.member "exprs" = .ok proj_nodes ∧
      agg_ra.member "aggs" = .ok agg_nodes ∧ agg_ra.member "group" = .ok group_nodes ∧
      collect_target_entries E cat [] [] proj_nodes agg_nodes st1 td =
        .ok (agg_targets, scan_targets, st2) ∧
      collect_groupby E group_nodes agg_targets [] st2.heap = .ok (groupby_exprs, heap3) ∧
      plan.stmt_type = .kSELECT ∧ plan.result_table_id = td.tableId ∧
      plan.result_col_list = [] ∧
      plan.plan.targetlist = agg_targets ∧ plan.plan.groupby_list = groupby_exprs ∧
      plan.plan.child.table_id = td.tableId ∧
      plan.plan.child.targetlist = scan_targets ∧
      plan.plan.child.simple_quals = [filter_expr] ∧
      plan.plan.child.quals = [] ∧
      plan.plan.child.col_list = getUsedColumnList st2 := by
  obtain ⟨query_ast, scan_ra, filter_ra, project_ra, agg_ra, td, condition, filter_expr, st1,
    hparse, _, hrels, _, _, _, htd, hcond, hf, ht⟩ :=
    translate_query_inv E cat parse query heap plan heap3 h
  obtain ⟨project_ra', agg_ra', proj_nodes, agg_nodes, group_nodes, agg_targets,
    scan_targets, st2, groupby_exprs, h2, h3, hp, ha, hg, hc, hgb, hplan⟩ :=
    translate_query_targets_inv E cat _ td filter_expr st1 plan heap3 ht
  simp only [Json.elem, List.get?, Except.ok.injEq] at h2 h3
  subst h2 h3
  subst hplan
  exact ⟨query_ast, scan_ra, filter_ra, project_ra, agg_ra, td, condition, filter_expr, st1,
    proj_nodes, agg_nodes, group_nodes, agg_targets, scan_targets, st2, groupby_exprs,
    hparse, hrels, htd, hcond, hf, hp, ha, hg, hc, hgb, rfl, rfl, rfl, rfl, rfl, rfl, rfl,
    rfl, rfl, rfl⟩

/-! ### Failure does not depend on the state -/

/-- Whether and how a column reference fails is decided by the node and the catalog. -/
theorem translateColRef_error_indep (expr : Json) (td : TableDescriptor) (st st' : State Heap)
    (f : Failure) (h : translateColRef E cat expr td st = .error f) :
    translateColRef E cat expr td st' = .error f := by
  unfold translateColRef at h ⊢
  cases h1 : expr.member "input" with
  | error e => simpa [h1] using h
  | ok input =>
    simp only [h1] at h ⊢
    cases h2 : input.GetInt with
    | error e => simpa [h2] using h
    | ok col_id =>
      simp only [h2] at h ⊢
      cases h3 : cat.getMetadataForColumn td.tableId col_id with
      | none => simpa [h3] using h
      | some cd => simp [h3] at h

/-- Whether and how an aggregate node fails is decided by the node. -/
theorem translateAggregate_error_indep (expr : Json) (td : TableDescriptor)
    (st st' : State Heap) (f : Failure) (h : translateAggregate E expr td st = .error f) :
    translateAggregate E expr td st' = .error f := by
  unfold translateAggregate at h ⊢
  repeat' (split at h <;> try simp_all)

/-- Whether and how an integer literal fails is decided by the node. -/
theorem translateIntLiteral_error_indep (expr : Json) (st st' : State Heap) (f : Failure)
    (h : translateIntLiteral E expr st = .error f) :
    translateIntLiteral E expr st' = .error f := by
  unfold translateIntLiteral at h ⊢
  repeat' (split at h <;> simp_all)

/-- Whether and how the translation of a node fails does not depend on the state it is
run in (induction on the size of the node). -/
theorem getExprFromNode_error_indep_aux (n : Nat) :
    ∀ (expr : Json), sizeOf expr < n → ∀ (td : TableDescriptor) (st st' : State Heap)
      (f : Failure), getExprFromNode E cat expr td st = .error f →
      getExprFromNode E cat expr td st' = .error f := by
  induction n with
  | zero => intro expr h; omega
  | succ n ih =>
    intro expr hsize td st st' f h
    rw [getExprFromNode_unfold] at h ⊢
    split
    · rename_i hop
      simp only [hop, if_true] at h
      rw [translateBinOp_unfold] at h ⊢
      cases h1 : expr.member "op" with
      | error e => simpa [h1] using h
      | ok op_val =>
        simp only [h1] at h ⊢
        cases h2 : op_val.GetString with
        | error e => simpa [h2] using h
        | ok bin_op_str =>
          simp only [h2] at h ⊢
          cases hm : expr.member "operands" with
          | error e => simpa [hm] using h
          | ok operands =>
            simp only [hm] at h ⊢
            split
            · rename_i harr
              simpa [harr] using h
            · rename_i harr
              simp only [harr, Bool.false_eq_true, if_false] at h
              cases h3 : operands.Size with
              | error e => simpa [h3] using h
              | ok size =>
                simp only [h3] at h ⊢
                split
                · rename_i hsz
                  simpa [hsz] using h
                · rename_i hsz
                  simp only [hsz, if_false] at h
                  cases h4 : operands.elem 0 with
                  | error e => simpa [h4] using h
                  | ok operand0 =>
                    simp only [h4] at h ⊢
                    have hs0 : sizeOf operand0 < n := by
                      have := Json.sizeOf_elem h4
                      have := Json.sizeOf_member hm
                      omega
                    cases h5 : getExprFromNode E cat operand0 td st with
                    | error e =>
                      simp only [h5, Except.error.injEq] at h
                      subst h
                      simp [ih operand0 hs0 td st st' e h5]
                    | ok r =>
                      obtain ⟨lhs, st1⟩ := r
                      simp only [h5] at h
                      cases h5' : getExprFromNode E cat operand0 td st' with
                      | error e =>
                        have := ih operand0 hs0 td st' st e h5'
                        rw [h5] at this
                        cases this
                      | ok r' =>
                        obtain ⟨lhs', st1'⟩ := r'
                        simp only
                        cases h6 : operands.elem 1 with
                        | error e => simpa [h6] using h
                        | ok operand1 =>
                          simp only [h6] at h ⊢
                          have hs1 : sizeOf operand1 < n := by
                            have := Json.sizeOf_elem h6
                            have := Json.sizeOf_member hm
                            omega
                          cases h7 : getExprFromNode E cat operand1 td st1 with
                          | error e =>
                            simp only [h7, Except.error.injEq] at h
                            subst h
                            simp [ih operand1 hs1 td st1 st1' e h7]
                          | ok r2 =>
                            obtain ⟨rhs, st2⟩ := r2
                            simp only [h7] at h
                            cases h7' : getExprFromNode E cat operand1 td st1' with
                            | error e =>
                              have := ih operand1 hs1 td st1' st1 e h7'
                              rw [h7] at this
                              cases this
                            | ok r2' =>
                              obtain ⟨rhs', st2'⟩ := r2'
                              simp only
                              cases h8 : to_bin_op bin_op_str with
                              | error e => simpa [h8] using h
                              | ok optype => simp [h8] at h
    · rename_i hop
      simp only [hop, if_false] at h
      split
      · rename_i hin
        simp only [hin, if_true] at h
        exact translateColRef_error_indep E cat expr td st st' f h
      · rename_i hin
        simp only [hin, if_false] at h
        split
        · rename_i hagg
          simp only [hagg, if_true] at h
          exact translateAggregate_error_indep E expr td st st' f h
        · rename_i hagg
          simp only [hagg, if_false] at h
          split
          · rename_i hint
            simp only [hint, if_true] at h
            exact translateIntLiteral_error_indep E expr st st' f h
          · rename_i hint
            simpa [hint] using h

/-- Whether and how the translation of a node fails does not depend on the state. -/
theorem getExprFromNode_error_indep (expr : Json) (td : TableDescriptor)
    (st st' : State Heap) (f : Failure) (h : getExprFromNode E cat expr td st = .error f) :
    getExprFromNode E cat expr td st' = .error f :=
  getExprFromNode_error_indep_aux E cat (sizeOf expr + 1) expr (Nat.lt_succ_self _) td st st' f h

/-- In a successful pass every node of the list was translated successfully. -/
theorem translateEach_each_ok (td : TableDescriptor) (xs : List Json) (st : State Heap)
    (es : List Expr) (st1 : State Heap) (h : translateEach E cat td xs st = .ok (es, st1))
    (node : Json) (hnode : node ∈ xs) :
    ∃ sti e sti', getExprFromNode E cat node td sti = .ok (e, sti') := by
  obtain ⟨i, hi, rfl⟩ := List.getElem_of_mem hnode
  obtain ⟨sti, e, sti', _, hg, _⟩ := translateEach_get E cat td xs st es st1 h i hi
  exact ⟨sti, e, sti', by simpa using hg⟩

/-- The dispatch hands a node with `agg`, without `op` and `input`, to
`translateAggregate`. -/
theorem getExprFromNode_dispatch_agg (ms : List (String × Json)) (v : Json)
    (td : TableDescriptor) (st : State Heap) (hop : Json.FindMember "op" ms = none)
    (hin : Json.FindMember "input" ms = none) (hagg : Json.FindMember "agg" ms = some v) :
    getExprFromNode E cat (.obj ms) td st = translateAggregate E (.obj ms) td st := by
  rw [getExprFromNode]
  simp [Json.IsObject, Json.HasMember, hop, hin, hagg]

/-! ### The sample query, for any engine and catalog -/

/-- C18: end to end. For the sample query text, parsed to the document it denotes, and a
catalog in which the table `orders` has columns at ordinals 0 and 1, `translate_query`
succeeds. With `c0` the column variable of ordinal 0, `l5` the literal 5, `f` the
normalized comparison of `c0` and `l5` with the operator greater-than, `c1` the column
variable of ordinal 1, `cnt` the COUNT aggregate of type BIGINT with nullability false and
`g` the deep copy of `c1`, built in this order, the plan has the scan target list `[c1]`,
the aggregate target list `[c1, cnt]`, the group-by list `[g]`, the filter `f`, the used
columns `[0, 1]`, and the Root plan has kind SELECT over the table `orders`. -/
theorem translate_query_end_to_end (parse : String → Option Json) (heap : Heap)
    (td : TableDescriptor) (cd0 cd1 : ColumnDescriptor)
    (hparse : parse sampleQuery = some sampleDoc)
    (htab : cat.getMetadataForTable "orders" = some td)
    (hcol0 : cat.getMetadataForColumn td.tableId 0 = some cd0)
    (hcol1 : cat.getMetadataForColumn td.tableId 1 = some cd1) :
    ∃ c0 heap1 l5 heap2 f heap3 c1 heap4 cnt heap5 g heap6,
      E.ColumnVar cd0.columnType td.tableId 0 0 heap = (c0, heap1) ∧
      E.analyzeValue 5 heap1 = (l5, heap2) ∧
      E.normalize .kGT .kONE c0 l5 heap2 = (f, heap3) ∧
      E.ColumnVar cd1.columnType td.tableId 1 0 heap3 = (c1, heap4) ∧
      E.AggExpr ⟨.kBIGINT, false⟩ .kCOUNT none false heap4 = (cnt, heap5) ∧
      E.deep_copy c1 heap5 = (g, heap6) ∧
      translate_query E cat parse sampleQuery heap =
        .ok (⟨⟨[⟨"", c1, false⟩, ⟨"", cnt, false⟩],
            ⟨[⟨"", c1, false⟩], [], [f], td.tableId, [0, 1]⟩, [g]⟩,
          .kSELECT, td.tableId, [], 0, 0⟩, heap6) := by
  have htable : getTableFromScanNode cat (.obj [("relOp", .str "LogicalTableScan"),
      ("table", .arr [.str "db", .str "public", .str "orders"])]) = .ok td := by
    simp [getTableFromScanNode, Json.member, Json.FindMember, Json.IsArray, Json.Size,
      Json.elem, Json.GetString, cString_orders, htab]
  rcases hA : E.ColumnVar cd0.columnType td.tableId 0 0 heap with ⟨c0, heap1⟩
  rcases hB : E.analyzeValue 5 heap1 with ⟨l5, heap2⟩
  rcases hC : E.normalize .kGT .kONE c0 l5 heap2 with ⟨f, heap3⟩
  rcases hD : E.ColumnVar cd1.columnType td.tableId 1 0 heap3 with ⟨c1, heap4⟩
  rcases hE : E.AggExpr ⟨.kBIGINT, false⟩ .kCOUNT none false heap4 with ⟨cnt, heap5⟩
  rcases hF : E.deep_copy c1 heap5 with ⟨g, heap6⟩
  have hc0 : getExprFromNode E cat (.obj [("input", .int 0)]) td ⟨[], heap⟩ =
      .ok (c0, ⟨[0], heap1⟩) := by
    rw [getExprFromNode_input E cat _ (.int 0) td _ (by simp [Json.FindMember])
      (by simp [Json.FindMember]),
      translateColRef_ok E cat _ 0 td cd0 _ (by simp [Json.FindMember]) (by decide) hcol0]
    simp only [hA, setInsert]
  have hl5 : getExprFromNode E cat (.int 5) td ⟨[0], heap1⟩ = .ok (l5, ⟨[0], heap2⟩) := by
    rw [getExprFromNode_int]
    simp [hB]
  have hfilter : getExprFromNode E cat
      (.obj [("op", .str ">"), ("operands", .arr [.obj [("input", .int 0)], .int 5])])
      td ⟨[], heap⟩ = .ok (f, ⟨[0], heap3⟩) := by
    rw [getExprFromNode_op E cat _ (.str ">") td _ (by simp [Json.FindMember]),
      translateBinOp_two_operands E cat _ ">" _ _ td _ _ _ _ _ (by simp [Json.FindMember])
        (by simp [Json.FindMember]) hc0 hl5]
    simp only [to_bin_op, cString_gt, if_true, hC]
  have htargets : collect_target_entries E cat [] [] (.arr sampleProjs) (.arr sampleAggs)
      ⟨[0], heap3⟩ td =
      .ok ([⟨"", c1, false⟩, ⟨"", cnt, false⟩], [⟨"", c1, false⟩], ⟨[0, 1], heap5⟩) := by
    simp only [collect_target_entries, collect_target_entries.projLoop,
      collect_target_entries.aggLoop, sampleProjs, sampleAggs]
    rw [getExprFromNode_input E cat _ (.int 1) td _ (by simp [Json.FindMember])
      (by simp [Json.FindMember]),
      translateColRef_ok E cat _ 1 td cd1 _ (by simp [Json.FindMember]) (by decide) hcol1]
    simp only [List.nil_append, hD]
    rw [getExprFromNode_dispatch_agg E cat _ (.str "COUNT") td _ (by simp [Json.FindMember])
      (by simp [Json.FindMember]) (by simp [Json.FindMember]),
      translateAggregate_count E _ [("type", .str "BIGINT"), ("nullable", .bool false)]
        false td _ (by simp [Json.FindMember]) (by simp [Json.FindMember])
        (by simp [Json.FindMember]) (by simp [Json.FindMember])]
    simp [hE, setInsert]
  have hgb : collect_groupby E (.arr [.int 0]) [⟨"", c1, false⟩, ⟨"", cnt, false⟩] [] heap5 =
      .ok ([g], heap6) := by
    simp [collect_groupby, collect_groupby.loop, Json.GetInt, Json.IsInt, vectorAt, hF]
  refine ⟨c0, heap1, l5, heap2, f, heap3, c1, heap4, cnt, heap5, g, heap6, rfl, hB, hC, hD,
    hE, hF, ?_⟩
  have h := translate_query_of_stages E cat parse sampleQuery heap sampleDoc
    _ _ _ _ _ _ _ _ _ _ _ _ _ _ _ _ _ hparse rfl rfl rfl rfl rfl rfl htable rfl hfilter rfl rfl
    rfl htargets hgb
  rw [h]
  simp [getUsedColumnList]

/-! ### Table resolution -/

/-- Two strictly ascending lists with the same elements are the same list. -/
theorem pairwise_lt_ext (l l' : List Int) (h : l.Pairwise (· < ·)) (h' : l'.Pairwise (· < ·))
    (hmem : ∀ j, j ∈ l ↔ j ∈ l') : l = l' := by
  have hn : l.Nodup := h.imp (fun hab => ne_of_lt hab)
  have hn' : l'.Nodup := h'.imp (fun hab => ne_of_lt hab)
  exact List.eq_of_perm_of_sorted ((List.perm_ext_iff_of_nodup hn hn').mpr hmem) h h'

/-- A successful translation keeps the element sequence of the used-column set strictly
ascending (induction on the size of the node). -/
theorem getExprFromNode_pairwise_aux (n : Nat) :
    ∀ (expr : Json), sizeOf expr < n → ∀ (td : TableDescriptor) (st : State Heap) (e : Expr)
      (st' : State Heap), st.used_columns_.Pairwise (· < ·) →
      getExprFromNode E cat expr td st = .ok (e, st') →
      st'.used_columns_.Pairwise (· < ·) := by
  induction n with
  | zero => intro expr h; omega
  | succ n ih =>
    intro expr hsize td st e st' hset h
    rw [getExprFromNode_unfold] at h
    split at h
    · obtain ⟨op_val, bin_op_str, operands, operand0, operand1, lhs, st1, rhs, st2, optype,
        _, _, hm, _, _, h0, h1, hl, hr, _, _, hst⟩ := translateBinOp_ok E cat expr td st e st' h
      have hs0 : sizeOf operand0 < n := by
        have := Json.sizeOf_elem h0
        have := Json.sizeOf_member hm
        omega
      have hs1 : sizeOf operand1 < n := by
        have := Json.sizeOf_elem h1
        have := Json.sizeOf_member hm
        omega
      rw [hst]
      exact ih operand1 hs1 td st1 rhs st2 (ih operand0 hs0 td st lhs st1 hset hl) hr
    · split at h
      · obtain ⟨col_id, cd, _, _, _, _, hst⟩ := translateColRef_inv E cat expr td st e st' h
        rw [hst]
        exact setInsert_pairwise col_id _ hset
      · split at h
        · rw [translateAggregate_used_columns E expr td st e st' h]
          exact hset
        · split at h
          · rw [translateIntLiteral_used_columns E expr st e st' h]
            exact hset
          · cases h

/-- A successful pass over a list of nodes keeps the element sequence of the used-column
set strictly ascending. -/
theorem translateEach_pairwise (td : TableDescriptor) (nodes : List Json) (st : State Heap)
    (es : List Expr) (st' : State Heap) (hset : st.used_columns_.Pairwise (· < ·))
    (h : translateEach E cat td nodes st = .ok (es, st')) :
    st'.used_columns_.Pairwise (· < ·) := by
  induction nodes generalizing st es st' with
  | nil =>
    simp only [translateEach, Except.ok.injEq, Prod.mk.injEq] at h
    rw [← h.2]
    exact hset
  | cons x xs ih =>
    simp only [translateEach] at h
    cases h1 : getExprFromNode E cat x td st with
    | error e => simp [h1] at h
    | ok r =>
      obtain ⟨e, st1⟩ := r
      simp only [h1] at h
      cases h2 : translateEach E cat td xs st1 with
      | error e => simp [h2] at h
      | ok r2 =>
        obtain ⟨es', st2⟩ := r2
        simp only [h2, Except.ok.injEq, Prod.mk.injEq] at h
        rw [← h.2]
        exact ih st1 es' st2
          (getExprFromNode_pairwise_aux E cat (sizeOf x + 1) x (Nat.lt_succ_self _) td st e st1
            hset h1) h2

/-- The column references reached in a column-reference node: its own ordinal. -/
theorem columnRefs_input (i : Int) : columnRefs (.obj [("input", .int i)]) = [i] := by
  rw [columnRefs_unfold]
  simp [Json.IsObject, Json.HasMember, Json.member, Json.FindMember]

/-- The used-column list of the Scan plan is strictly ascending. -/
theorem translate_query_col_list_pairwise (parse : String → Option Json) (query : String)
    (heap : Heap) (plan : RootPlan Expr) (heap3 : Heap)
    (h : translate_query E cat parse query heap = .ok (plan, heap3)) :
    plan.plan.child.col_list.Pairwise (· < ·) := by
  obtain ⟨query_ast, scan_ra, filter_ra, project_ra, agg_ra, td, condition, filter_expr, st1,
    _, _, _, _, _, _, _, _, hf, ht⟩ := translate_query_inv E cat parse query heap plan heap3 h
  obtain ⟨project_ra', agg_ra', proj_nodes, agg_nodes, group_nodes, agg_targets,
    scan_targets, st2, groupby_exprs, _, _, _, _, _, hc, _, hplan⟩ :=
    translate_query_targets_inv E cat _ td filter_expr st1 plan heap3 ht
  obtain ⟨projs, aggs, rfl, rfl⟩ :=
    collect_target_entries_arrays E cat [] [] proj_nodes agg_nodes st1 td _ hc
  obtain ⟨es, as, stp, htp, hta, _, _⟩ :=
    collect_target_entries_ok E cat projs aggs st1 td agg_targets scan_targets st2 hc
  rw [hplan]
  simp only [getUsedColumnList_eq]
  have h1 : st1.used_columns_.Pairwise (· < ·) :=
    getExprFromNode_pairwise_aux E cat (sizeOf condition + 1) condition (Nat.lt_succ_self _) td
      ⟨[], heap⟩ filter_expr st1 List.Pairwise.nil hf
  exact translateEach_pairwise E cat td aggs stp as st2
    (translateEach_pairwise E cat td projs st1 es stp h1 htp) hta

/-- C20: after any sequence of column-reference translations, run on a used-column set
(the empty set of a fresh adapter included), the list returned by `getUsedColumnList` is
strictly ascending, hence free of duplicates, and its elements are exactly the ordinals
held before and the ordinals translated. Two sequences that reference the same ordinals,
in whatever order and however often, leave the same list; and the used-column list of the
Scan plan is strictly ascending, so two plans that use the same columns carry the same
list. -/
theorem getUsedColumnList_strictly_ascending (td : TableDescriptor) (ordinals : List Int)
    (st sa : State Heap) (es : List Expr)
    (hset : st.used_columns_.Pairwise (· < ·))
    (hrun : translateEach E cat td (ordinals.map (fun i => Json.obj [("input", .int i)])) st =
      .ok (es, sa)) :
    (getUsedColumnList sa).Pairwise (· < ·) ∧ (getUsedColumnList sa).Nodup ∧
    (∀ j, j ∈ getUsedColumnList sa ↔ j ∈ st.used_columns_ ∨ j ∈ ordinals) ∧
    (∀ (ordinals' : List Int) (st' sb : State Heap) (es' : List Expr),
      st'.used_columns_ = st.used_columns_ → (∀ j, j ∈ ordinals' ↔ j ∈ ordinals) →
      translateEach E cat td (ordinals'.map (fun i => Json.obj [("input", .int i)])) st' =
        .ok (es', sb) →
      getUsedColumnList sb = getUsedColumnList sa) ∧
    (∀ (parse parse' : String → Option Json) (query query' : String) (heap heap' : Heap)
      (r r' : RootPlan Expr × Heap),
      translate_query E cat parse query heap = .ok r →
      translate_query E cat parse' query' heap' = .ok r' →
      r.1.plan.child.col_list.Pairwise (· < ·) ∧
      ((∀ j, j ∈ r'.1.plan.child.col_list ↔ j ∈ r.1.plan.child.col_list) →
        r'.1.plan.child.col_list = r.1.plan.child.col_list)) := by
  have hmem : ∀ (os : List Int) (s s2 : State Heap) (xs : List Expr),
      translateEach E cat td (os.map (fun i => Json.obj [("input", .int i)])) s = .ok (xs, s2) →
      ∀ j, j ∈ getUsedColumnList s2 ↔ j ∈ s.used_columns_ ∨ j ∈ os := by
    intro os s s2 xs hr j
    rw [getUsedColumnList_eq, translateEach_used E cat td _ s xs s2 hr j]
    simp only [List.mem_map]
    constructor
    · rintro (h | ⟨node, ⟨i, hi, rfl⟩, hj⟩)
      · exact Or.inl h
      · rw [columnRefs_input] at hj
        simp only [List.mem_singleton] at hj
        subst hj
        exact Or.inr hi
    · rintro (h | h)
      · exact Or.inl h
      · exact Or.inr ⟨_, ⟨j, h, rfl⟩, by rw [columnRefs_input]; simp⟩
  have hp : (getUsedColumnList sa).Pairwise (· < ·) := by
    rw [getUsedColumnList_eq]
    exact translateEach_pairwise E cat td _ st es sa hset hrun
  refine ⟨hp, hp.imp (fun hab => ne_of_lt hab), hmem ordinals st sa es hrun, ?_, ?_⟩
  · intro ordinals' st' sb es' hst hsame hrun'
    have hp' : (getUsedColumnList sb).Pairwise (· < ·) := by
      rw [getUsedColumnList_eq]
      exact translateEach_pairwise E cat td _ st' es' sb (by rw [hst]; exact hset) hrun'
    apply pairwise_lt_ext _ _ hp' hp
    intro j
    rw [hmem ordinals' st' sb es' hrun' j, hmem ordinals st sa es hrun j, hst, hsame j]
  · intro parse parse' query query' heap heap' r r' hr hr'
    obtain ⟨plan, heap3⟩ := r
    obtain ⟨plan', heap3'⟩ := r'
    have h1 := translate_query_col_list_pairwise E cat parse query heap plan heap3 hr
    have h2 := translate_query_col_list_pairwise E cat parse' query' heap' plan' heap3' hr'
    exact ⟨h1, fun hsame => pairwise_lt_ext _ _ h2 h1 hsame⟩

/-! ### Failures of the translator are failed checks and assertions -/

/-- A failed `operator[](const char*)` is a failed assertion. -/
theorem member_ne_undefinedBehavior (name : String) (j : Json) :
    j.member name ≠ .error .undefinedBehavior := by
  cases j <;> simp only [Json.member] <;> try (intro h; cases h)
  split <;> (intro h; cases h)

/-- A failed `GetString` is a failed assertion. -/
theorem GetString_ne_undefinedBehavior (j : Json) :
    j.GetString ≠ .error .undefinedBehavior := by
  cases j <;> simp only [Json.GetString] <;> (intro h; cases h)

/-- A failed `GetInt` is a failed assertion. -/
theorem GetInt_ne_undefinedBehavior (j : Json) :
    j.GetInt ≠ .error .undefinedBehavior := by
  cases j <;> simp only [Json.GetInt] <;> try (intro h; cases h)
  split <;> (intro h; cases h)

/-- A failed `GetInt64` is a failed assertion. -/
theorem GetInt64_ne_undefinedBehavior (j : Json) :
    j.GetInt64 ≠ .error .undefinedBehavior := by
  cases j <;> simp only [Json.GetInt64] <;> try (intro h; cases h)
  split <;> (intro h; cases h)

/-- A failed `GetBool` is a failed assertion. -/
theorem GetBool_ne_undefinedBehavior (j : Json) :
    j.GetBool ≠ .error .undefinedBehavior := by
  cases j <;> simp only [Json.GetBool] <;> (intro h; cases h)

/-- A failed `Size` is a failed assertion. -/
theorem Size_ne_undefinedBehavior (j : Json) :
    j.Size ≠ .error .undefinedBehavior := by
  cases j <;> simp only [Json.Size] <;> (intro h; cases h)

/-- A failed `operator[](SizeType)` is a failed assertion. -/
theorem elem_ne_undefinedBehavior (i : Nat) (j : Json) :
    j.elem i ≠ .error .undefinedBehavior := by
  cases j <;> simp only [Json.elem] <;> try (intro h; cases h)
  split <;> (intro h; cases h)

/-- A failed token mapper is a failed `CHECK`. -/
theorem token_mappers_ne_undefinedBehavior (s : String) :
    to_bin_op s ≠ .error .undefinedBehavior ∧ to_agg_kind s ≠ .error .undefinedBehavior ∧
    to_sql_type s ≠ .error .undefinedBehavior := by
  refine ⟨?_, ?_, ?_⟩
  · unfold to_bin_op; split <;> (intro h; cases h)
  · unfold to_agg_kind; split <;> (intro h; cases h)
  · unfold to_sql_type; split <;> (intro h; cases h)

/-- A failed column reference is a failed assertion or a failed `CHECK`. -/
theorem translateColRef_ne_undefinedBehavior (expr : Json) (td : TableDescriptor)
    (st : State Heap) : translateColRef E cat expr td st ≠ .error .undefinedBehavior := by
  intro h
  unfold translateColRef at h
  split at h
  · cases h
    exact member_ne_undefinedBehavior _ _ ‹_›
  · split at h
    · cases h
      exact GetInt_ne_undefinedBehavior _ ‹_›
    · split at h <;> cases h

/-- A failed integer literal is a failed assertion. -/
theorem translateIntLiteral_ne_undefinedBehavior (expr : Json) (st : State Heap) :
    translateIntLiteral E expr st ≠ .error .undefinedBehavior := by
  intro h
  unfold translateIntLiteral at h
  split at h
  · cases h
    exact GetInt64_ne_undefinedBehavior _ ‹_›
  · cases h

/-- A failed aggregate node is a failed assertion or a failed `CHECK`. -/
theorem translateAggregate_ne_undefinedBehavior (expr : Json) (td : TableDescriptor)
    (st : State Heap) : translateAggregate E expr td st ≠ .error .undefinedBehavior := by
  intro h
  unfold translateAggregate at h
  split at h
  · cases h
  · split at h
    · cases h
      exact member_ne_undefinedBehavior _ _ ‹_›
    · split at h
      · cases h
      · split at h
        · cases h
          exact member_ne_undefinedBehavior _ _ ‹_›
        · split at h
          · cases h
            exact GetString_ne_undefinedBehavior _ ‹_›
          · split at h
            · cases h
              exact (token_mappers_ne_undefinedBehavior _).2.2 ‹_›
            · split at h
              · cases h
                exact member_ne_undefinedBehavior _ _ ‹_›
              · split at h
                · cases h
                  exact GetBool_ne_undefinedBehavior _ ‹_›
                · split at h
                  · cases h
                    exact member_ne_undefinedBehavior _ _ ‹_›
                  · split at h
                    · cases h
                      exact GetString_ne_undefinedBehavior _ ‹_›
                    · split at h
                      · cases h
                        exact (token_mappers_ne_undefinedBehavior _).2.1 ‹_›
                      · cases h

/-- The translation of a node never ends in undefined behaviour: it returns or stops at a
failed `CHECK` or assertion (induction on the size of the node). -/
theorem getExprFromNode_ne_undefinedBehavior_aux (n : Nat) :
    ∀ (expr : Json), sizeOf expr < n → ∀ (td : TableDescriptor) (st : State Heap),
      getExprFromNode E cat expr td st ≠ .error .undefinedBehavior := by
  induction n with
  | zero => intro expr h; omega
  | succ n ih =>
    intro expr hsize td st h
    rw [getExprFromNode_unfold] at h
    split at h
    · rw [translateBinOp_unfold] at h
      split at h
      · cases h
        exact member_ne_undefinedBehavior _ _ ‹_›
      · split at h
        · cases h
          exact GetString_ne_undefinedBehavior _ ‹_›
        · split at h
          · cases h
            exact member_ne_undefinedBehavior _ _ ‹_›
          · rename_i operands hm
            split at h
            · cases h
            · split at h
              · cases h
                exact Size_ne_undefinedBehavior _ ‹_›
              · split at h
                · cases h
                · split at h
                  · cases h
                    exact elem_ne_undefinedBehavior _ _ ‹_›
                  · rename_i operand0 h0
                    have hs0 : sizeOf operand0 < n := by
                      have := Json.sizeOf_elem h0
                      have := Json.sizeOf_member hm
                      omega
                    split at h
                    · rename_i e he
                      cases h
                      exact ih operand0 hs0 td st he
                    · split at h
                      · cases h
                        exact elem_ne_undefinedBehavior _ _ ‹_›
                      · rename_i operand1 h1
                        have hs1 : sizeOf operand1 < n := by
                          have := Json.sizeOf_elem h1
                          have := Json.sizeOf_member hm
                          omega
                        split at h
                        · rename_i e he
                          cases h
                          exact ih operand1 hs1 td _ he
                        · split at h
                          · cases h
                            exact (token_mappers_ne_undefinedBehavior _).1 ‹_›
                          · cases h
    · split at h
      · exact translateColRef_ne_undefinedBehavior E cat expr td st h
      · split at h
        · exact translateAggregate_ne_undefinedBehavior E expr td st h
        · split at h
          · exact translateIntLiteral_ne_undefinedBehavior E expr st h
          · cases h

/-- The translation of a node never ends in undefined behaviour. -/
theorem getExprFromNode_ne_undefinedBehavior (expr : Json) (td : TableDescriptor)
    (st : State Heap) : getExprFromNode E cat expr td st ≠ .error .undefinedBehavior :=
  getExprFromNode_ne_undefinedBehavior_aux E cat (sizeOf expr + 1) expr (Nat.lt_succ_self _) td st

/-- A pass of single translations never ends in undefined behaviour. -/
theorem translateEach_ne_undefinedBehavior (td : TableDescriptor) (nodes : List Json)
    (st : State Heap) : translateEach E cat td nodes st ≠ .error .undefinedBehavior := by
  induction nodes generalizing st with
  | nil => intro h; simp [translateEach] at h
  | cons x xs ih =>
    intro h
    simp only [translateEach] at h
    split at h
    · rename_i e he
      cases h
      exact getExprFromNode_ne_undefinedBehavior E cat x td st he
    · split at h
      · rename_i e he
        cases h
        exact ih _ he
      · cases h

/-- Building the target lists never ends in undefined behaviour. -/
theorem collect_target_entries_ne_undefinedBehavior (proj_nodes agg_nodes : Json)
    (st : State Heap) (td : TableDescriptor) :
    collect_target_entries E cat [] [] proj_nodes agg_nodes st td ≠
      .error .undefinedBehavior := by
  intro h
  unfold collect_target_entries at h
  split at h
  · rename_i projs
    rw [projLoop_eq] at h
    split at h
    · rename_i e he
      split at he
      · rename_i e' he'
        cases he
        cases h
        exact translateEach_ne_undefinedBehavior E cat td projs st he'
      · cases he
    · rename_i agg1 scan1 st1 heq
      split at h
      · rename_i aggs
        rw [aggLoop_eq] at h
        split at h
        · rename_i e he
          split at he
          · rename_i e' he'
            cases he
            cases h
            exact translateEach_ne_undefinedBehavior E cat td aggs st1 he'
          · cases he
        · cases h
      · cases h
  · cases h

/-- Resolving the table fails at a failed assertion or a failed `CHECK`. -/
theorem getTableFromScanNode_ne_undefinedBehavior (scan_ra : Json) :
    getTableFromScanNode cat scan_ra ≠ .error .undefinedBehavior := by
  intro h
  unfold getTableFromScanNode at h
  split at h
  · cases h
    exact member_ne_undefinedBehavior _ _ ‹_›
  · split at h
    · cases h
    · split at h
      · cases h
        exact Size_ne_undefinedBehavior _ ‹_›
      · split at h
        · cases h
        · split at h
          · cases h
            exact elem_ne_undefinedBehavior _ _ ‹_›
          · split at h
            · cases h
              exact GetString_ne_undefinedBehavior _ ‹_›
            · split at h <;> cases h

/-- Second half of `translate_query`: a run that ends in undefined behaviour has built
the target lists and met the undefined behaviour in `collect_groupby`. -/
theorem translate_query_targets_undefinedBehavior (rels : Json) (td : TableDescriptor)
    (filter_expr : Expr) (st1 : State Heap)
    (h : translate_query.targets E cat rels td filter_expr st1 = .error .undefinedBehavior) :
    ∃ project_ra agg_ra proj_nodes agg_nodes group_nodes agg_targets scan_targets st2,
      rels.elem 2 = .ok project_ra ∧ rels.elem 3 = .ok agg_ra ∧
      project_ra.member "exprs" = .ok proj_nodes ∧
      agg_ra.member "aggs" = .ok agg_nodes ∧ agg_ra.member "group" = .ok group_nodes ∧
      collect_target_entries E cat [] [] proj_nodes agg_nodes st1 td =
        .ok (agg_targets, scan_targets, st2) ∧
      collect_groupby E group_nodes agg_targets [] st2.heap = .error .undefinedBehavior := by
  unfold translate_query.targets at h
  split at h
  · cases h
    exact absurd ‹_› (elem_ne_undefinedBehavior _ _)
  · rename_i project_ra h2
    split at h
    · cases h
      exact absurd ‹_› (member_ne_undefinedBehavior _ _)
    · rename_i proj_nodes hp
      split at h
      · cases h
        exact absurd ‹_› (elem_ne_undefinedBehavior _ _)
      · rename_i agg_ra h3
        split at h
        · cases h
          exact absurd ‹_› (member_ne_undefinedBehavior _ _)
        · rename_i agg_nodes ha
          split at h
          · cases h
            exact absurd ‹_› (member_ne_undefinedBehavior _ _)
          · rename_i group_nodes hg
            split at h
            · cases h
            · split at h
              · rename_i e he
                cases h
                exact absurd he (collect_target_entries_ne_undefinedBehavior E cat _ _ _ _)
              · rename_i agg_targets scan_targets st2 hc
                split at h
                · rename_i e he
                  cases h
                  exact ⟨project_ra, agg_ra, proj_nodes, agg_nodes, group_nodes, agg_targets,
                    scan_targets, st2, h2, h3, hp, ha, hg, hc, he⟩
                · cases h

/-- The whole of `translate_query`: a run that ends in undefined behaviour has passed
every check of the stages and translated the filter condition. -/
theorem translate_query_undefinedBehavior (parse : String → Option Json) (query : String)
    (heap : Heap)
    (h : translate_query E cat parse query heap = .error .undefinedBehavior) :
    ∃ query_ast scan_ra filter_ra project_ra agg_ra td condition filter_expr st1,
      parse query = some query_ast ∧
      query_ast.member "rels" = .ok (.arr [scan_ra, filter_ra, project_ra, agg_ra]) ∧
      (∃ relOp_val, scan_ra.member "relOp" = .ok relOp_val ∧
        relOp_val.GetString = .ok "LogicalTableScan") ∧
      getTableFromScanNode cat scan_ra = .ok td ∧
      filter_ra.member "condition" = .ok condition ∧
      getExprFromNode E cat condition td ⟨[], heap⟩ = .ok (filter_expr, st1) ∧
      translate_query.targets E cat (.arr [scan_ra, filter_ra, project_ra, agg_ra]) td
        filter_expr st1 = .error .undefinedBehavior := by
  unfold translate_query at h
  split at h
  · cases h
  · rename_i query_ast hparse
    split at h
    · cases h
    · split at h
      · cases h
        exact absurd ‹_› (member_ne_undefinedBehavior _ _)
      · rename_i rels hrels
        split at h
        · cases h
        · split at h
          · cases h
            exact absurd ‹_› (Size_ne_undefinedBehavior _)
          · rename_i size hsize
            split at h
            · cases h
            · rename_i hsz
              simp only [ne_eq, Decidable.not_not] at hsz
              subst hsz
              obtain ⟨a, b, c, d, rfl⟩ := Json.size_four rels hsize
              simp only [Json.elem, List.get?] at h
              split at h
              · cases h
              · split at h
                · cases h
                  exact absurd ‹_› (member_ne_undefinedBehavior _ _)
                · rename_i relOp_val hrel
                  split at h
                  · cases h
                    exact absurd ‹_› (GetString_ne_undefinedBehavior _)
                  · rename_i relOp hstr
                    split at h
                    · cases h
                    · rename_i hname
                      simp only [ne_eq, Decidable.not_not] at hname
                      subst hname
                      split at h
                      · cases h
                      · split at h
                        · cases h
                          exact absurd ‹_› (getTableFromScanNode_ne_undefinedBehavior cat _)
                        · rename_i td htd
                          split at h
                          · cases h
                            exact absurd ‹_› (member_ne_undefinedBehavior _ _)
                          · rename_i condition hcond
                            split at h
                            · rename_i e he
                              cases h
                              exact absurd he (getExprFromNode_ne_undefinedBehavior E cat _ _ _)
                            · rename_i filter_expr st1 hf
                              exact ⟨query_ast, a, b, c, d, td, condition, filter_expr, st1,
                                hparse, hrels, ⟨relOp_val, hrel, hstr⟩, htd, hcond, hf, h⟩

/-- A binary-operator translation never ends in undefined behaviour. -/
theorem translateBinOp_ne_undefinedBehavior (ms : List (String × Json))
    (td : TableDescriptor) (st : State Heap) :
    translateBinOp E cat (.obj ms) td st ≠ .error .undefinedBehavior := by
  cases hop : Json.FindMember "op" ms with
  | none =>
    rw [translateBinOp_unfold]
    simp only [Json.member, hop]
    intro h
    cases h
  | some op_val =>
    rw [← getExprFromNode_op E cat ms op_val td st hop]
    exact getExprFromNode_ne_undefinedBehavior E cat _ td st

/-- A node of the condition, of the projection list or of the aggregate list whose
translation fails cannot sit in a run that translated the condition and built the target
lists. -/
theorem failing_node_blocks_stages (heap : Heap) (query_ast rels scan_ra : Json)
    (td' : TableDescriptor) (node : Json)
    (hrels : query_ast.member "rels" = .ok rels) (hscan : rels.elem 0 = .ok scan_ra)
    (htd : getTableFromScanNode cat scan_ra = .ok td')
    (hnode : (∃ filter_ra, rels.elem 1 = .ok filter_ra ∧
        filter_ra.member "condition" = .ok node) ∨
      (∃ project_ra projs, rels.elem 2 = .ok project_ra ∧
        project_ra.member "exprs" = .ok (.arr projs) ∧ node ∈ projs) ∨
      (∃ agg_ra aggs, rels.elem 3 = .ok agg_ra ∧
        agg_ra.member "aggs" = .ok (.arr aggs) ∧ node ∈ aggs))
    (hfail : ∃ st0 f, getExprFromNode E cat node td' st0 = .error f)
    (scan_ra' filter_ra project_ra agg_ra : Json) (td : TableDescriptor) (condition : Json)
    (filter_expr : Expr) (st1 : State Heap) (proj_nodes agg_nodes : Json)
    (agg_targets scan_targets : List (TargetEntry Expr)) (st2 : State Heap)
    (hrels' : query_ast.member "rels" = .ok (.arr [scan_ra', filter_ra, project_ra, agg_ra]))
    (htd' : getTableFromScanNode cat scan_ra' = .ok td)
    (hcond : filter_ra.member "condition" = .ok condition)
    (hf : getExprFromNode E cat condition td ⟨[], heap⟩ = .ok (filter_expr, st1))
    (hp : project_ra.member "exprs" = .ok proj_nodes)
    (ha : agg_ra.member "aggs" = .ok agg_nodes)
    (hc : collect_target_entries E cat [] [] proj_nodes agg_nodes st1 td =
      .ok (agg_targets, scan_targets, st2)) : False := by
  obtain ⟨st0, f, hfail⟩ := hfail
  rw [hrels] at hrels'
  cases hrels'
  simp only [Json.elem, List.get?, Except.ok.injEq] at hscan
  subst hscan
  rw [htd] at htd'
  cases htd'
  obtain ⟨projs, aggs, rfl, rfl⟩ :=
    collect_target_entries_arrays E cat [] [] proj_nodes agg_nodes st1 td' _ hc
  obtain ⟨es, as, stp, htp, hta, _, _⟩ :=
    collect_target_entries_ok E cat projs aggs st1 td' agg_targets scan_targets st2 hc
  rcases hnode with ⟨filter_ra', h1, hcond'⟩ | ⟨project_ra', projs', h2, hp', hmem⟩ |
    ⟨agg_ra', aggs', h3, ha', hmem⟩
  · simp only [Json.elem, List.get?, Except.ok.injEq] at h1
    subst h1
    rw [hcond] at hcond'
    cases hcond'
    have := getExprFromNode_error_indep E cat node td' st0 ⟨[], heap⟩ f hfail
    rw [hf] at this
    cases this
  · simp only [Json.elem, List.get?, Except.ok.injEq] at h2
    subst h2
    rw [hp] at hp'
    cases hp'
    obtain ⟨sti, e, sti', hok⟩ := translateEach_each_ok E cat td' projs st1 es stp htp node hmem
    have := getExprFromNode_error_indep E cat node td' st0 sti f hfail
    rw [hok] at this
    cases this
  · simp only [Json.elem, List.get?, Except.ok.injEq] at h3
    subst h3
    rw [ha] at ha'
    cases ha'
    obtain ⟨sti, e, sti', hok⟩ := translateEach_each_ok E cat td' aggs stp as st2 hta node hmem
    have := getExprFromNode_error_indep E cat node td' st0 sti f hfail
    rw [hok] at this
    cases this

/-- C16: failure propagates. A binary-operator node fails whenever the translation of its
operand 0 or of its operand 1 fails (wherever inside the operand the failure arises), and
`translate_query` fails, returning no plan, whenever the translation of the filter
condition, of a projection node or of an aggregate node fails for the table of the scan
stage. In both cases the run stops at a failed `CHECK` or assertion: it neither returns
nor runs into undefined behaviour. -/
theorem translation_failure_propagates (ms : List (String × Json)) (operands operand : Json)
    (td : TableDescriptor) (st : State Heap)
    (parse : String → Option Json) (query : String) (heap : Heap) :
    (Json.FindMember "operands" ms = some operands →
      (operands.elem 0 = .ok operand ∨ operands.elem 1 = .ok operand) →
      (∃ st0 f, getExprFromNode E cat operand td st0 = .error f) →
      ∃ f, translateBinOp E cat (.obj ms) td st = .error f ∧ f ≠ .undefinedBehavior ∧
        ∀ op_val, Json.FindMember "op" ms = some op_val →
          getExprFromNode E cat (.obj ms) td st = .error f) ∧
    (∀ query_ast rels scan_ra td' node, parse query = some query_ast →
      query_ast.member "rels" = .ok rels → rels.elem 0 = .ok scan_ra →
      getTableFromScanNode cat scan_ra = .ok td' →
      ((∃ filter_ra, rels.elem 1 = .ok filter_ra ∧ filter_ra.member "condition" = .ok node) ∨
        (∃ project_ra projs, rels.elem 2 = .ok project_ra ∧
          project_ra.member "exprs" = .ok (.arr projs) ∧ node ∈ projs) ∨
        (∃ agg_ra aggs, rels.elem 3 = .ok agg_ra ∧
          agg_ra.member "aggs" = .ok (.arr aggs) ∧ node ∈ aggs)) →
      (∃ st0 f, getExprFromNode E cat node td' st0 = .error f) →
      ∃ f, translate_query E cat parse query heap = .error f ∧ f ≠ .undefinedBehavior) := by
  refine ⟨?_, ?_⟩
  · intro hm hel ⟨st0, f, hfail⟩
    cases hres : translateBinOp E cat (.obj ms) td st with
    | error f' =>
      refine ⟨f', rfl, ?_, fun op_val hop => by
        rw [getExprFromNode_op E cat ms op_val td st hop, hres]⟩
      rintro rfl
      exact translateBinOp_ne_undefinedBehavior E cat ms td st hres
    | ok r =>
      obtain ⟨e, st'⟩ := r
      obtain ⟨op_val, bin_op_str, operands', operand0, operand1, lhs, st1, rhs, st2, optype,
        _, _, hm', _, _, h0, h1, hl, hr, _, _, _⟩ :=
        translateBinOp_ok E cat (.obj ms) td st e st' hres
      simp only [Json.member, hm, Except.ok.injEq] at hm'
      subst hm'
      rcases hel with hel | hel
      · rw [hel] at h0
        cases h0
        have := getExprFromNode_error_indep E cat operand td st0 st f hfail
        rw [hl] at this
        cases this
      · rw [hel] at h1
        cases h1
        have := getExprFromNode_error_indep E cat operand td st0 st1 f hfail
        rw [hr] at this
        cases this
  · intro query_ast rels scan_ra td' node hparse hrels hscan htd hnode hfail
    cases hres : translate_query E cat parse query heap with
    | error f' =>
      refine ⟨f', rfl, ?_⟩
      rintro rfl
      obtain ⟨query_ast', scan_ra', filter_ra, project_ra, agg_ra, td'', condition, filter_expr,
        st1, hparse', hrels', _, htd', hcond, hf, ht⟩ :=
        translate_query_undefinedBehavior E cat parse query heap hres
      rw [hparse] at hparse'
      cases hparse'
      obtain ⟨project_ra', agg_ra', proj_nodes, agg_nodes, group_nodes, agg_targets,
        scan_targets, st2, h2, h3, hp, ha, _, hc, _⟩ :=
        translate_query_targets_undefinedBehavior E cat _ td'' filter_expr st1 ht
      simp only [Json.elem, List.get?, Except.ok.injEq] at h2 h3
      subst h2 h3
      exact (failing_node_blocks_stages E cat heap query_ast rels scan_ra td' node hrels hscan
        htd hnode hfail scan_ra' filter_ra project_ra agg_ra td'' condition filter_expr st1
        proj_nodes agg_nodes agg_targets scan_targets st2 hrels' htd' hcond hf hp ha hc).elim
    | ok r =>
      obtain ⟨plan, heap3⟩ := r
      obtain ⟨query_ast', scan_ra', filter_ra, project_ra, agg_ra, td'', condition, filter_expr,
        st1, hparse', _, hrels', _, _, _, htd', hcond, hf, ht⟩ :=
        translate_query_inv E cat parse query heap plan heap3 hres
      rw [hparse] at hparse'
      cases hparse'
      obtain ⟨project_ra', agg_ra', proj_nodes, agg_nodes, group_nodes, agg_targets,
        scan_targets, st2, groupby_exprs, h2, h3, hp, ha, _, hc, _, _⟩ :=
        translate_query_targets_inv E cat _ td'' filter_expr st1 plan heap3 ht
      simp only [Json.elem, List.get?, Except.ok.injEq] at h2 h3
      subst h2 h3
      exact (failing_node_blocks_stages E cat heap query_ast rels scan_ra td' node hrels hscan
        htd hnode hfail scan_ra' filter_ra project_ra agg_ra td'' condition filter_expr st1
        proj_nodes agg_nodes agg_targets scan_targets st2 hrels' htd' hcond hf hp ha hc).elim

end Properties

/-- The sample run of `collect_target_entries`: one column reference projected, one
COUNT aggregate. -/
theorem sample_collect_target_entries :
    collect_target_entries sampleEngine sampleCatalog [] [] (.arr sampleProjs)
        (.arr sampleAggs) ⟨[], 0⟩ sampleTable =
      .ok ([⟨"", .ColumnVar 0 ⟨.kBIGINT, false⟩ 7 1 0, false⟩,
            ⟨"", .AggExpr 1 ⟨.kBIGINT, false⟩ .kCOUNT none false, false⟩],
           [⟨"", .ColumnVar 0 ⟨.kBIGINT, false⟩ 7 1 0, false⟩], ⟨[1], 2⟩) := by
  simp [collect_target_entries, collect_target_entries.projLoop,
    collect_target_entries.aggLoop, sampleProjs, sampleAggs, getExprFromNode,
    translateColRef, translateAggregate, Json.member, Json.FindMember, Json.IsObject,
    Json.HasMember, Json.GetString, cString_gt, cString_COUNT, cString_BIGINT,
    cString_orders, Json.GetInt, Json.IsInt, Json.GetBool, setInsert,
    sampleCatalog, sampleEngine, sampleTable, to_sql_type, to_agg_kind]

/-- Witness of C1 on the sample run. -/
theorem collect_target_entries_shares_projections_witness :
    collect_target_entries sampleEngine sampleCatalog [] [] (.arr sampleProjs)
        (.arr sampleAggs) ⟨[], 0⟩ sampleTable =
      .ok ([⟨"", .ColumnVar 0 ⟨.kBIGINT, false⟩ 7 1 0, false⟩,
            ⟨"", .AggExpr 1 ⟨.kBIGINT, false⟩ .kCOUNT none false, false⟩],
           [⟨"", .ColumnVar 0 ⟨.kBIGINT, false⟩ 7 1 0, false⟩], ⟨[1], 2⟩) ∧
    ((∃ es as, translateEach sampleEngine sampleCatalog sampleTable
        (sampleProjs ++ sampleAggs) ⟨[], 0⟩ = .ok (es ++ as, ⟨[1], 2⟩) ∧
      es.length = sampleProjs.length ∧ as.length = sampleAggs.length) ∧
    ∀ (i : Nat) (hi : i < sampleProjs.length), ∃ sti e sti',
      (∃ before, translateEach sampleEngine sampleCatalog sampleTable
        (sampleProjs.take i) ⟨[], 0⟩ = .ok (before, sti)) ∧
      getExprFromNode sampleEngine sampleCatalog (sampleProjs.get ⟨i, hi⟩) sampleTable sti =
        .ok (e, sti') ∧
      ([⟨"", Term.ColumnVar 0 ⟨.kBIGINT, false⟩ 7 1 0, false⟩] :
        List (TargetEntry Term))[i]?.map (fun t => t.expr) = some e ∧
      ([⟨"", Term.ColumnVar 0 ⟨.kBIGINT, false⟩ 7 1 0, false⟩,
        ⟨"", Term.AggExpr 1 ⟨.kBIGINT, false⟩ .kCOUNT none false, false⟩] :
        List (TargetEntry Term))[i]?.map (fun t => t.expr) = some e) :=
  ⟨sample_collect_target_entries,
    collect_target_entries_shares_projections sampleEngine sampleCatalog sampleProjs
      sampleAggs ⟨[], 0⟩ sampleTable _ _ _ sample_collect_target_entries⟩


/-- Witness of C2 on the sample run. -/
theorem collect_target_entries_layout_witness :
    collect_target_entries sampleEngine sampleCatalog [] [] (.arr sampleProjs)
        (.arr sampleAggs) ⟨[], 0⟩ sampleTable =
      .ok ([⟨"", .ColumnVar 0 ⟨.kBIGINT, false⟩ 7 1 0, false⟩,
            ⟨"", .AggExpr 1 ⟨.kBIGINT, false⟩ .kCOUNT none false, false⟩],
           [⟨"", .ColumnVar 0 ⟨.kBIGINT, false⟩ 7 1 0, false⟩], ⟨[1], 2⟩) ∧
    (([⟨"", Term.ColumnVar 0 ⟨.kBIGINT, false⟩ 7 1 0, false⟩] :
        List (TargetEntry Term)).length = sampleProjs.length ∧
    ([⟨"", Term.ColumnVar 0 ⟨.kBIGINT, false⟩ 7 1 0, false⟩,
        ⟨"", Term.AggExpr 1 ⟨.kBIGINT, false⟩ .kCOUNT none false, false⟩] :
        List (TargetEntry Term)).length = sampleProjs.length + sampleAggs.length ∧
    (∃ es as st1, translateEach sampleEngine sampleCatalog sampleTable sampleProjs ⟨[], 0⟩ =
        .ok (es, st1) ∧
      translateEach sampleEngine sampleCatalog sampleTable sampleAggs st1 =
        .ok (as, ⟨[1], 2⟩) ∧
      (∀ i, i < sampleProjs.length → ∃ e, es[i]? = some e ∧
        ([⟨"", Term.ColumnVar 0 ⟨.kBIGINT, false⟩ 7 1 0, false⟩] :
          List (TargetEntry Term))[i]? = some ⟨"", e, false⟩ ∧
        ([⟨"", Term.ColumnVar 0 ⟨.kBIGINT, false⟩ 7 1 0, false⟩,
          ⟨"", Term.AggExpr 1 ⟨.kBIGINT, false⟩ .kCOUNT none false, false⟩] :
          List (TargetEntry Term))[i]? = some ⟨"", e, false⟩) ∧
      (∀ j, j < sampleAggs.length → ∃ e, as[j]? = some e ∧
        ([⟨"", Term.ColumnVar 0 ⟨.kBIGINT, false⟩ 7 1 0, false⟩,
          ⟨"", Term.AggExpr 1 ⟨.kBIGINT, false⟩ .kCOUNT none false, false⟩] :
          List (TargetEntry Term))[sampleProjs.length + j]? = some ⟨"", e, false⟩)) ∧
    (∀ t, t ∈ ([⟨"", Term.ColumnVar 0 ⟨.kBIGINT, false⟩ 7 1 0, false⟩] :
          List (TargetEntry Term)) ++
        [⟨"", Term.ColumnVar 0 ⟨.kBIGINT, false⟩ 7 1 0, false⟩,
          ⟨"", Term.AggExpr 1 ⟨.kBIGINT, false⟩ .kCOUNT none false, false⟩] →
      t.resname = "" ∧ t.distinct = false)) :=
  ⟨sample_collect_target_entries,
    collect_target_entries_layout sampleEngine sampleCatalog sampleProjs sampleAggs
      ⟨[], 0⟩ sampleTable _ _ _ sample_collect_target_entries⟩

/-- Witness of C3: target list `[A, B, C]` and positions `[0, 2]`. -/
theorem collect_groupby_deep_copies_witness :
    (∀ g ∈ [0, 2], g < sampleTargets.length ∧ g ≤ 2147483647) ∧
    ∃ exprs groupby_exprs heap1,
      [0, 2].map (fun g => sampleTargets[g]?.map (fun t => t.expr)) = exprs.map some ∧
      collect_groupby sampleEngine
        (.arr ([0, 2].map (fun g : Nat => Json.int (Int.ofNat g)))) sampleTargets [] 3 =
        .ok (groupby_exprs, heap1) ∧
      (groupby_exprs, heap1) = deepCopyEach sampleEngine exprs 3 ∧
      groupby_exprs.length = [0, 2].length ∧
      ∀ i, i < [0, 2].length → ∃ g t, [0, 2][i]? = some g ∧ sampleTargets[g]? = some t ∧
        groupby_exprs[i]? =
          some (sampleEngine.deep_copy t.expr
            (deepCopyEach sampleEngine (exprs.take i) 3).2).1 :=
  ⟨by simp [sampleTargets],
    collect_groupby_deep_copies sampleEngine sampleTargets [0, 2] 3 (by simp [sampleTargets])⟩

/-- The run of C3 on target list `[A, B, C]` and positions `[0, 2]`, evaluated: the
copies of `A` and `C`, in that order. -/
theorem sample_collect_groupby :
    collect_groupby sampleEngine (.arr [.int 0, .int 2]) sampleTargets [] 3 =
      .ok ([.Copy 3 (.ColumnVar 0 ⟨.kBIGINT, false⟩ 7 0 0),
            .Copy 4 (.AggExpr 2 ⟨.kBIGINT, false⟩ .kCOUNT none false)], 5) := by
  simp [collect_groupby, collect_groupby.loop, Json.GetInt, Json.IsInt, vectorAt,
    sampleTargets, sampleEngine]

/-- Witness of C4: target list `[A, B, C]` and the single position 3. -/
theorem collect_groupby_out_of_bounds_witness :
    (∀ g ∈ [(3 : Int)], -2147483648 ≤ g ∧ g ≤ 2147483647) ∧
    (∃ g ∈ [(3 : Int)], g < 0 ∨ (sampleTargets.length : Int) ≤ g) ∧
    collect_groupby sampleEngine (.arr ([(3 : Int)].map Json.int)) sampleTargets [] 3 =
      .error .undefinedBehavior :=
  ⟨by simp, by simp [sampleTargets],
    collect_groupby_out_of_bounds sampleEngine sampleTargets [3] [] 3 (by simp)
      (by simp [sampleTargets])⟩


/-- Witness of C6: ordinal 1 of the sample table, translated after ordinal 0 was used. -/
theorem translateColRef_idempotent_on_used_columns_witness :
    ((-2147483648 : Int) ≤ 1 ∧ (1 : Int) ≤ 2147483647) ∧
    sampleCatalog.getMetadataForColumn sampleTable.tableId 1 = some ⟨⟨.kBIGINT, false⟩⟩ ∧
    ([0] : List Int).Pairwise (· < ·) ∧
    ∃ e1 st1 e2 st2,
      translateColRef sampleEngine sampleCatalog (.obj [("input", .int 1)]) sampleTable
        ⟨[0], 0⟩ = .ok (e1, st1) ∧
      translateColRef sampleEngine sampleCatalog (.obj [("input", .int 1)]) sampleTable
        st1 = .ok (e2, st2) ∧
      st2.used_columns_ = st1.used_columns_ ∧
      (∀ j, j ∈ st1.used_columns_ ↔ j = 1 ∨ j ∈ ([0] : List Int)) ∧
      st1.used_columns_.Pairwise (· < ·) ∧
      (getUsedColumnList st1).count 1 = 1 ∧
      (getUsedColumnList st2).count 1 = 1 :=
  ⟨by decide, by simp [sampleCatalog, sampleTable], by simp,
    translateColRef_idempotent_on_used_columns sampleEngine sampleCatalog 1 sampleTable
      ⟨⟨.kBIGINT, false⟩⟩ ⟨[0], 0⟩ (by decide) (by simp [sampleCatalog, sampleTable])
      (by simp)⟩

/-- Witness of C7 on the three accepted tokens and on the token `<`. -/
theorem token_mappers_accept_one_token_witness :
    to_bin_op ">" = .ok .kGT ∧ to_agg_kind "COUNT" = .ok .kCOUNT ∧
    to_sql_type "BIGINT" = .ok .kBIGINT ∧
    (to_bin_op "<" = .error .checkFailed ∧ ∀ v, to_bin_op "<" ≠ .ok v) :=
  ⟨(token_mappers_accept_one_token ">").1.mpr rfl,
    (token_mappers_accept_one_token "COUNT").2.1.mpr rfl,
    (token_mappers_accept_one_token "BIGINT").2.2.1.mpr rfl,
    (token_mappers_accept_one_token "<").2.2.2.1 (by decide)⟩

/-- C8 (what the code does): the bare JSON integer 5000000000 is not translated. The
literal branch of `getExprFromNode` is entered on `IsInt()`, which holds for the signed
32-bit range only, although `translateIntLiteral` reads `GetInt64()`: the dispatch ends in
its final `CHECK(false)` and no `IntLiteral::analyzeValue(5000000000)` is returned. -/
theorem getExprFromNode_int_5000000000_fails :
    getExprFromNode sampleEngine sampleCatalog (.int 5000000000) sampleTable ⟨[], 0⟩ =
      .error .checkFailed ∧
    ¬ ∃ st1, getExprFromNode sampleEngine sampleCatalog (.int 5000000000) sampleTable
      ⟨[], 0⟩ = .ok ((sampleEngine.analyzeValue 5000000000 0).1, st1) := by
  have h : getExprFromNode sampleEngine sampleCatalog (.int 5000000000) sampleTable ⟨[], 0⟩ =
      .error .checkFailed := by
    rw [getExprFromNode_int]
    simp
  refine ⟨h, ?_⟩
  rintro ⟨st1, h1⟩
  rw [h] at h1
  cases h1

/-- The integer-literal branch on the literal 5, which fits the signed 32-bit range. -/
theorem getExprFromNode_int_literal_witness :
    ((-2147483648 : Int) ≤ 5 ∧ (5 : Int) ≤ 2147483647) ∧
    ∃ st1, getExprFromNode sampleEngine sampleCatalog (.int 5) sampleTable ⟨[], 0⟩ =
        .ok ((sampleEngine.analyzeValue 5 0).1, st1) ∧
      st1.used_columns_ = [] ∧ st1.heap = (sampleEngine.analyzeValue 5 0).2 :=
  ⟨by decide,
    (getExprFromNode_int_literal sampleEngine sampleCatalog 5 sampleTable ⟨[], 0⟩).1
      (by decide)⟩

/-- Witness of C9: a node holding all three markers goes to `translateBinOp`, a node
holding `input` and `agg` goes to `translateColRef`, and a string fails. -/
theorem getExprFromNode_dispatch_witness :
    getExprFromNode sampleEngine sampleCatalog
        (.obj [("agg", .str "COUNT"), ("input", .int 1), ("op", .str ">")]) sampleTable
        ⟨[], 0⟩ =
      translateBinOp sampleEngine sampleCatalog
        (.obj [("agg", .str "COUNT"), ("input", .int 1), ("op", .str ">")]) sampleTable
        ⟨[], 0⟩ ∧
    getExprFromNode sampleEngine sampleCatalog
        (.obj [("agg", .str "COUNT"), ("input", .int 1)]) sampleTable ⟨[], 0⟩ =
      translateColRef sampleEngine sampleCatalog
        (.obj [("agg", .str "COUNT"), ("input", .int 1)]) sampleTable ⟨[], 0⟩ ∧
    getExprFromNode sampleEngine sampleCatalog (.str "x") sampleTable ⟨[], 0⟩ =
      .error .checkFailed :=
  ⟨(getExprFromNode_dispatch sampleEngine sampleCatalog
      [("agg", .str "COUNT"), ("input", .int 1), ("op", .str ">")] .null sampleTable
      ⟨[], 0⟩).1 (by simp [Json.FindMember]),
    (getExprFromNode_dispatch sampleEngine sampleCatalog
      [("agg", .str "COUNT"), ("input", .int 1)] .null sampleTable
      ⟨[], 0⟩).2.1 (by simp [Json.FindMember]) (by simp [Json.FindMember]),
    (getExprFromNode_dispatch sampleEngine sampleCatalog [] (.str "x") sampleTable
      ⟨[], 0⟩).2.2.2 (by simp) (by simp)⟩

/-- Witness of C10 on the COUNT node of the sample query. -/
theorem translateAggregate_count_bigint_witness :
    Json.FindMember "op" [("agg", Json.str "COUNT"),
      ("type", .obj [("type", .str "BIGINT"), ("nullable", .bool false)])] = none ∧
    Json.FindMember "input" [("agg", Json.str "COUNT"),
      ("type", .obj [("type", .str "BIGINT"), ("nullable", .bool false)])] = none ∧
    ∃ st1,
      getExprFromNode sampleEngine sampleCatalog
          (.obj [("agg", .str "COUNT"),
            ("type", .obj [("type", .str "BIGINT"), ("nullable", .bool false)])])
          sampleTable ⟨[0], 3⟩ =
        .ok ((sampleEngine.AggExpr ⟨.kBIGINT, false⟩ .kCOUNT none false 3).1, st1) ∧
      translateAggregate sampleEngine
          (.obj [("agg", .str "COUNT"),
            ("type", .obj [("type", .str "BIGINT"), ("nullable", .bool false)])])
          sampleTable ⟨[0], 3⟩ =
        .ok ((sampleEngine.AggExpr ⟨.kBIGINT, false⟩ .kCOUNT none false 3).1, st1) ∧
      st1.used_columns_ = [0] ∧
      st1.heap = (sampleEngine.AggExpr ⟨.kBIGINT, false⟩ .kCOUNT none false 3).2 :=
  ⟨by simp [Json.FindMember], by simp [Json.FindMember],
    translateAggregate_count_bigint sampleEngine sampleCatalog _
      [("type", .str "BIGINT"), ("nullable", .bool false)] false sampleTable ⟨[0], 3⟩
      (by simp [Json.FindMember]) (by simp [Json.FindMember]) (by simp [Json.FindMember])
      (by simp [Json.FindMember]) (by simp [Json.FindMember]) (by simp [Json.FindMember])⟩


/-- The scan stage of the sample query names the table `orders`. -/
theorem sample_getTableFromScanNode :
    getTableFromScanNode sampleCatalog (.obj [("relOp", .str "LogicalTableScan"),
      ("table", .arr [.str "db", .str "public", .str "orders"])]) = .ok ⟨7⟩ := by
  simp [getTableFromScanNode, Json.member, Json.FindMember, Json.IsArray, Json.Size, Json.elem,
    Json.GetString, cString_gt, cString_COUNT, cString_BIGINT,
    cString_orders, sampleCatalog]

/-- The filter condition of the sample query. -/
theorem sample_filter :
    getExprFromNode sampleEngine sampleCatalog
        (.obj [("op", .str ">"), ("operands", .arr [.obj [("input", .int 0)], .int 5])])
        ⟨7⟩ ⟨[], 0⟩ =
      .ok (.OperExpr 2 .kGT .kONE (.ColumnVar 0 ⟨.kBIGINT, false⟩ 7 0 0) (.IntLiteral 1 5),
        ⟨[0], 3⟩) := by
  simp [getExprFromNode, translateBinOp, translateColRef, translateIntLiteral, Json.member,
    Json.FindMember, Json.IsObject, Json.IsArray, Json.HasMember, Json.GetString, cString_gt, cString_COUNT, cString_BIGINT,
    cString_orders, Json.GetInt,
    Json.GetInt64, Json.IsInt, Json.Size, Json.elem, setInsert, sampleCatalog, sampleEngine,
    to_bin_op]

/-- The target lists of the sample query, built after the filter. -/
theorem sample_targets_after_filter :
    collect_target_entries sampleEngine sampleCatalog [] [] (.arr sampleProjs)
        (.arr sampleAggs) ⟨[0], 3⟩ ⟨7⟩ =
      .ok ([⟨"", .ColumnVar 3 ⟨.kBIGINT, false⟩ 7 1 0, false⟩,
            ⟨"", .AggExpr 4 ⟨.kBIGINT, false⟩ .kCOUNT none false, false⟩],
           [⟨"", .ColumnVar 3 ⟨.kBIGINT, false⟩ 7 1 0, false⟩], ⟨[0, 1], 5⟩) := by
  simp [collect_target_entries, collect_target_entries.projLoop,
    collect_target_entries.aggLoop, sampleProjs, sampleAggs, getExprFromNode,
    translateColRef, translateAggregate, Json.member, Json.FindMember, Json.IsObject,
    Json.HasMember, Json.GetString, cString_gt, cString_COUNT, cString_BIGINT,
    cString_orders, Json.GetInt, Json.IsInt, Json.GetBool, setInsert,
    sampleCatalog, sampleEngine, to_sql_type, to_agg_kind]

/-- The group-by list of the sample query. -/
theorem sample_groupby :
    collect_groupby sampleEngine (.arr [.int 0])
        [⟨"", .ColumnVar 3 ⟨.kBIGINT, false⟩ 7 1 0, false⟩,
         ⟨"", .AggExpr 4 ⟨.kBIGINT, false⟩ .kCOUNT none false, false⟩] [] 5 =
      .ok ([.Copy 5 (.ColumnVar 3 ⟨.kBIGINT, false⟩ 7 1 0)], 6) := by
  simp [collect_groupby, collect_groupby.loop, Json.GetInt, Json.IsInt, vectorAt, sampleEngine]

/-- The sample parser reads the sample query. -/
theorem sample_parse : sampleParse sampleQuery = some sampleDoc := by
  simp [sampleParse]

/-- The sample query is translated into the sample plan. -/
theorem sample_translate_query :
    translate_query sampleEngine sampleCatalog sampleParse sampleQuery 0 =
      .ok (samplePlan, 6) :=
  translate_query_of_stages sampleEngine sampleCatalog sampleParse sampleQuery 0 sampleDoc
    _ _ _ _ _ _ _ _ _ _ _ _ _ _ _ _ _ sample_parse rfl rfl rfl rfl rfl rfl
    sample_getTableFromScanNode rfl sample_filter rfl rfl rfl sample_targets_after_filter
    sample_groupby

/-- Witness of C5 on the sample query: the used columns are 0 (filter) and 1 (projection). -/
theorem translate_query_used_columns_witness :
    translate_query sampleEngine sampleCatalog sampleParse sampleQuery 0 =
      .ok (samplePlan, 6) ∧
    ∃ query_ast scan_ra filter_ra project_ra agg_ra condition projs aggs,
      sampleParse sampleQuery = some query_ast ∧
      query_ast.member "rels" = .ok (.arr [scan_ra, filter_ra, project_ra, agg_ra]) ∧
      filter_ra.member "condition" = .ok condition ∧
      project_ra.member "exprs" = .ok (.arr projs) ∧
      agg_ra.member "aggs" = .ok (.arr aggs) ∧
      ∀ j, j ∈ samplePlan.plan.child.col_list ↔
        j ∈ columnRefs condition ∨ (∃ node ∈ projs, j ∈ columnRefs node) ∨
          ∃ node ∈ aggs, j ∈ columnRefs node :=
  ⟨sample_translate_query,
    translate_query_used_columns sampleEngine sampleCatalog sampleParse sampleQuery 0
      samplePlan 6 sample_translate_query⟩


/-- Witness of C11: ordinal 1 of the sample table resolves and is translated, ordinal 2
does not resolve and fails. -/
theorem translateColRef_succeeds_iff_resolved_witness :
    ((-2147483648 : Int) ≤ 1 ∧ (1 : Int) ≤ 2147483647) ∧
    (∃ r, getExprFromNode sampleEngine sampleCatalog (.obj [("input", .int 1)]) sampleTable
      ⟨[], 0⟩ = .ok r) ∧
    (∃ st1,
      getExprFromNode sampleEngine sampleCatalog (.obj [("input", .int 1)]) sampleTable
          ⟨[], 0⟩ =
        .ok ((sampleEngine.ColumnVar ⟨.kBIGINT, false⟩ sampleTable.tableId 1 0 0).1, st1) ∧
      translateColRef sampleEngine sampleCatalog (.obj [("input", .int 1)]) sampleTable
          ⟨[], 0⟩ =
        .ok ((sampleEngine.ColumnVar ⟨.kBIGINT, false⟩ sampleTable.tableId 1 0 0).1, st1)) ∧
    (getExprFromNode sampleEngine sampleCatalog (.obj [("input", .int 2)]) sampleTable
        ⟨[], 0⟩ = .error .checkFailed ∧
      translateColRef sampleEngine sampleCatalog (.obj [("input", .int 2)]) sampleTable
        ⟨[], 0⟩ = .error .checkFailed) :=
  ⟨by decide,
    (translateColRef_succeeds_iff_resolved sampleEngine sampleCatalog 1 sampleTable ⟨[], 0⟩
      (by decide)).1.mpr ⟨⟨⟨.kBIGINT, false⟩⟩, by simp [sampleCatalog, sampleTable]⟩,
    (translateColRef_succeeds_iff_resolved sampleEngine sampleCatalog 1 sampleTable ⟨[], 0⟩
      (by decide)).2.1 ⟨⟨.kBIGINT, false⟩⟩ (by simp [sampleCatalog, sampleTable]),
    (translateColRef_succeeds_iff_resolved sampleEngine sampleCatalog 2 sampleTable ⟨[], 0⟩
      (by decide)).2.2 (by simp [sampleCatalog, sampleTable])⟩

/-- Witness of C12: a node with a single operand, itself malformed, fails the size check
of `operands`, not the string access inside the operand. -/
theorem translateBinOp_wrong_operand_count_witness :
    Json.FindMember "op" [("op", Json.str ">"),
      ("operands", .arr [.obj [("input", .str "x")]])] = some (.str ">") ∧
    Json.FindMember "operands" [("op", Json.str ">"),
      ("operands", .arr [.obj [("input", .str "x")]])] =
        some (.arr [.obj [("input", .str "x")]]) ∧
    (∀ a b, Json.arr [.obj [("input", .str "x")]] ≠ .arr [a, b]) ∧
    translateBinOp sampleEngine sampleCatalog
      (.obj [("op", .str ">"), ("operands", .arr [.obj [("input", .str "x")]])]) sampleTable
      ⟨[], 0⟩ = .error .checkFailed ∧
    getExprFromNode sampleEngine sampleCatalog
      (.obj [("op", .str ">"), ("operands", .arr [.obj [("input", .str "x")]])]) sampleTable
      ⟨[], 0⟩ = .error .checkFailed :=
  ⟨by simp [Json.FindMember], by simp [Json.FindMember], by simp,
    (translateBinOp_wrong_operand_count sampleEngine sampleCatalog
      [("op", .str ">"), ("operands", .arr [.obj [("input", .str "x")]])] (.str ">")
      (.arr [.obj [("input", .str "x")]]) sampleTable ⟨[], 0⟩ (by simp [Json.FindMember])
      (by simp [Json.FindMember]) (by simp)).1,
    (translateBinOp_wrong_operand_count sampleEngine sampleCatalog
      [("op", .str ">"), ("operands", .arr [.obj [("input", .str "x")]])] (.str ">")
      (.arr [.obj [("input", .str "x")]]) sampleTable ⟨[], 0⟩ (by simp [Json.FindMember])
      (by simp [Json.FindMember]) (by simp)).2.1⟩

/-- The column reference to ordinal 0 of the sample table, translated first. -/
theorem sample_column0 :
    getExprFromNode sampleEngine sampleCatalog (.obj [("input", .int 0)]) sampleTable
      ⟨[], 0⟩ = .ok (.ColumnVar 0 ⟨.kBIGINT, false⟩ 7 0 0, ⟨[0], 1⟩) := by
  simp [getExprFromNode, translateColRef, Json.member, Json.FindMember, Json.IsObject,
    Json.HasMember, Json.GetInt, Json.IsInt, setInsert, sampleCatalog, sampleEngine,
    sampleTable]

/-- The literal 5, translated second. -/
theorem sample_literal5 :
    getExprFromNode sampleEngine sampleCatalog (.int 5) sampleTable ⟨[0], 1⟩ =
      .ok (.IntLiteral 1 5, ⟨[0], 2⟩) := by
  rw [getExprFromNode_int]
  simp [sampleEngine]

/-- Witness of C13: the filter of the sample query, column 0 on the left and the literal
5 on the right. -/
theorem translateBinOp_greater_than_witness :
    Json.FindMember "op" [("op", Json.str ">"),
      ("operands", .arr [.obj [("input", .int 0)], .int 5])] = some (.str ">") ∧
    Json.FindMember "operands" [("op", Json.str ">"),
      ("operands", .arr [.obj [("input", .int 0)], .int 5])] =
        some (.arr [.obj [("input", .int 0)], .int 5]) ∧
    getExprFromNode sampleEngine sampleCatalog (.obj [("input", .int 0)]) sampleTable
      ⟨[], 0⟩ = .ok (.ColumnVar 0 ⟨.kBIGINT, false⟩ 7 0 0, ⟨[0], 1⟩) ∧
    getExprFromNode sampleEngine sampleCatalog (.int 5) sampleTable ⟨[0], 1⟩ =
      .ok (.IntLiteral 1 5, ⟨[0], 2⟩) ∧
    ∃ st3,
      getExprFromNode sampleEngine sampleCatalog
          (.obj [("op", .str ">"), ("operands", .arr [.obj [("input", .int 0)], .int 5])])
          sampleTable ⟨[], 0⟩ =
        .ok ((sampleEngine.normalize .kGT .kONE (.ColumnVar 0 ⟨.kBIGINT, false⟩ 7 0 0)
          (.IntLiteral 1 5) 2).1, st3) ∧
      translateBinOp sampleEngine sampleCatalog
          (.obj [("op", .str ">"), ("operands", .arr [.obj [("input", .int 0)], .int 5])])
          sampleTable ⟨[], 0⟩ =
        .ok ((sampleEngine.normalize .kGT .kONE (.ColumnVar 0 ⟨.kBIGINT, false⟩ 7 0 0)
          (.IntLiteral 1 5) 2).1, st3) ∧
      st3.used_columns_ = [0] ∧
      st3.heap = (sampleEngine.normalize .kGT .kONE (.ColumnVar 0 ⟨.kBIGINT, false⟩ 7 0 0)
        (.IntLiteral 1 5) 2).2 :=
  ⟨by simp [Json.FindMember], by simp [Json.FindMember], sample_column0, sample_literal5,
    translateBinOp_greater_than sampleEngine sampleCatalog
      [("op", .str ">"), ("operands", .arr [.obj [("input", .int 0)], .int 5])]
      (.obj [("input", .int 0)]) (.int 5) sampleTable ⟨[], 0⟩ ⟨[0], 1⟩ ⟨[0], 2⟩
      (.ColumnVar 0 ⟨.kBIGINT, false⟩ 7 0 0) (.IntLiteral 1 5) (by simp [Json.FindMember])
      (by simp [Json.FindMember]) sample_column0 sample_literal5⟩

/-- Witness of C14: a document whose `rels` array has one element. -/
theorem translate_query_wrong_stage_count_witness :
    (fun _ : String => some (Json.obj [("rels", .arr [.null])])) "" =
      some (.obj [("rels", .arr [.null])]) ∧
    Json.FindMember "rels" [("rels", Json.arr [.null])] = some (.arr [.null]) ∧
    [Json.null].length ≠ 4 ∧
    translate_query sampleEngine sampleCatalog
      (fun _ => some (.obj [("rels", .arr [.null])])) "" 0 = .error .checkFailed ∧
    ∀ r, translate_query sampleEngine sampleCatalog
      (fun _ => some (.obj [("rels", .arr [.null])])) "" 0 ≠ .ok r :=
  ⟨rfl, by simp [Json.FindMember], by simp,
    translate_query_wrong_stage_count sampleEngine sampleCatalog
      (fun _ => some (.obj [("rels", .arr [.null])])) "" 0 [("rels", .arr [.null])] [.null]
      rfl (by simp [Json.FindMember]) (by simp)⟩


/-- The column reference to ordinal 9 fails on the sample catalog. -/
theorem sample_column9_fails :
    getExprFromNode sampleEngine sampleCatalog (.obj [("input", .int 9)]) sampleTable
      ⟨[], 0⟩ = .error .checkFailed := by
  rw [getExprFromNode_input sampleEngine sampleCatalog _ (.int 9) sampleTable _
    (by simp [Json.FindMember]) (by simp [Json.FindMember])]
  exact translateColRef_unresolved sampleEngine sampleCatalog _ 9 sampleTable _
    (by simp [Json.FindMember]) (by decide) (by simp [sampleCatalog, sampleTable])

/-- Witness of C17 on the sample query. -/
theorem translate_query_plan_shape_witness :
    translate_query sampleEngine sampleCatalog sampleParse sampleQuery 0 =
      .ok (samplePlan, 6) ∧
    ∃ query_ast scan_ra filter_ra project_ra agg_ra td condition filter_expr st1
        proj_nodes agg_nodes group_nodes agg_targets scan_targets st2 groupby_exprs,
      sampleParse sampleQuery = some query_ast ∧
      query_ast.member "rels" = .ok (.arr [scan_ra, filter_ra, project_ra, agg_ra]) ∧
      getTableFromScanNode sampleCatalog scan_ra = .ok td ∧
      filter_ra.member "condition" = .ok condition ∧
      getExprFromNode sampleEngine sampleCatalog condition td ⟨[], 0⟩ =
        .ok (filter_expr, st1) ∧
      project_ra.member "exprs" = .ok proj_nodes ∧
      agg_ra.member "aggs" = .ok agg_nodes ∧ agg_ra.member "group" = .ok group_nodes ∧
      collect_target_entries sampleEngine sampleCatalog [] [] proj_nodes agg_nodes st1 td =
        .ok (agg_targets, scan_targets, st2) ∧
      collect_groupby sampleEngine group_nodes agg_targets [] st2.heap =
        .ok (groupby_exprs, 6) ∧
      samplePlan.stmt_type = .kSELECT ∧ samplePlan.result_table_id = td.tableId ∧
      samplePlan.result_col_list = [] ∧
      samplePlan.plan.targetlist = agg_targets ∧
      samplePlan.plan.groupby_list = groupby_exprs ∧
      samplePlan.plan.child.table_id = td.tableId ∧
      samplePlan.plan.child.targetlist = scan_targets ∧
      samplePlan.plan.child.simple_quals = [filter_expr] ∧
      samplePlan.plan.child.quals = [] ∧
      samplePlan.plan.child.col_list = getUsedColumnList st2 :=
  ⟨sample_translate_query,
    translate_query_plan_shape sampleEngine sampleCatalog sampleParse sampleQuery 0
      samplePlan 6 sample_translate_query⟩

/-- Witness of C18 on the sample engine and the sample catalog. -/
theorem translate_query_end_to_end_witness :
    sampleParse sampleQuery = some sampleDoc ∧
    sampleCatalog.getMetadataForTable "orders" = some sampleTable ∧
    sampleCatalog.getMetadataForColumn sampleTable.tableId 0 = some ⟨⟨.kBIGINT, false⟩⟩ ∧
    sampleCatalog.getMetadataForColumn sampleTable.tableId 1 = some ⟨⟨.kBIGINT, false⟩⟩ ∧
    ∃ c0 heap1 l5 heap2 f heap3 c1 heap4 cnt heap5 g heap6,
      sampleEngine.ColumnVar ⟨.kBIGINT, false⟩ sampleTable.tableId 0 0 0 = (c0, heap1) ∧
      sampleEngine.analyzeValue 5 heap1 = (l5, heap2) ∧
      sampleEngine.normalize .kGT .kONE c0 l5 heap2 = (f, heap3) ∧
      sampleEngine.ColumnVar ⟨.kBIGINT, false⟩ sampleTable.tableId 1 0 heap3 = (c1, heap4) ∧
      sampleEngine.AggExpr ⟨.kBIGINT, false⟩ .kCOUNT none false heap4 = (cnt, heap5) ∧
      sampleEngine.deep_copy c1 heap5 = (g, heap6) ∧
      translate_query sampleEngine sampleCatalog sampleParse sampleQuery 0 =
        .ok (⟨⟨[⟨"", c1, false⟩, ⟨"", cnt, false⟩],
            ⟨[⟨"", c1, false⟩], [], [f], sampleTable.tableId, [0, 1]⟩, [g]⟩,
          .kSELECT, sampleTable.tableId, [], 0, 0⟩, heap6) :=
  ⟨sample_parse, by simp [sampleCatalog, sampleTable], by simp [sampleCatalog, sampleTable],
    by simp [sampleCatalog, sampleTable],
    translate_query_end_to_end sampleEngine sampleCatalog sampleParse 0 sampleTable
      ⟨⟨.kBIGINT, false⟩⟩ ⟨⟨.kBIGINT, false⟩⟩ sample_parse (by simp [sampleCatalog, sampleTable])
      (by simp [sampleCatalog, sampleTable]) (by simp [sampleCatalog, sampleTable])⟩

/-- The column references to the ordinals 1, 0, 1, translated in this order on a fresh
adapter. -/
theorem sample_column_sequence :
    translateEach sampleEngine sampleCatalog sampleTable
        (([1, 0, 1] : List Int).map (fun i => Json.obj [("input", .int i)])) ⟨[], 0⟩ =
      .ok ([.ColumnVar 0 ⟨.kBIGINT, false⟩ 7 1 0, .ColumnVar 1 ⟨.kBIGINT, false⟩ 7 0 0,
        .ColumnVar 2 ⟨.kBIGINT, false⟩ 7 1 0], ⟨[0, 1], 3⟩) := by
  simp [translateEach, getExprFromNode, translateColRef, Json.member, Json.FindMember,
    Json.IsObject, Json.HasMember, Json.GetInt, Json.IsInt, setInsert, sampleCatalog,
    sampleEngine, sampleTable]

/-- Witness of C20: after the references to 1, 0 and 1 the list is `[0, 1]`. -/
theorem getUsedColumnList_strictly_ascending_witness :
    ([] : List Int).Pairwise (· < ·) ∧
    translateEach sampleEngine sampleCatalog sampleTable
        (([1, 0, 1] : List Int).map (fun i => Json.obj [("input", .int i)])) ⟨[], 0⟩ =
      .ok ([.ColumnVar 0 ⟨.kBIGINT, false⟩ 7 1 0, .ColumnVar 1 ⟨.kBIGINT, false⟩ 7 0 0,
        .ColumnVar 2 ⟨.kBIGINT, false⟩ 7 1 0], ⟨[0, 1], 3⟩) ∧
    (getUsedColumnList (⟨[0, 1], 3⟩ : State Nat)).Pairwise (· < ·) ∧
    (getUsedColumnList (⟨[0, 1], 3⟩ : State Nat)).Nodup ∧
    ∀ j, j ∈ getUsedColumnList (⟨[0, 1], 3⟩ : State Nat) ↔
      j ∈ ([] : List Int) ∨ j ∈ ([1, 0, 1] : List Int) :=
  ⟨List.Pairwise.nil, sample_column_sequence,
    (getUsedColumnList_strictly_ascending sampleEngine sampleCatalog sampleTable [1, 0, 1]
      ⟨[], 0⟩ ⟨[0, 1], 3⟩ _ List.Pairwise.nil sample_column_sequence).1,
    (getUsedColumnList_strictly_ascending sampleEngine sampleCatalog sampleTable [1, 0, 1]
      ⟨[], 0⟩ ⟨[0, 1], 3⟩ _ List.Pairwise.nil sample_column_sequence).2.1,
    (getUsedColumnList_strictly_ascending sampleEngine sampleCatalog sampleTable [1, 0, 1]
      ⟨[], 0⟩ ⟨[0, 1], 3⟩ _ List.Pairwise.nil sample_column_sequence).2.2.1⟩


/-- Witness of C16: a comparison whose operand 0 refers to the unresolved ordinal 9 fails,
and so does the document whose filter condition is that reference; neither run ends in
undefined behaviour. -/
theorem translation_failure_propagates_witness :
    Json.FindMember "operands" [("op", Json.str ">"),
      ("operands", .arr [.obj [("input", .int 9)], .int 5])] =
        some (.arr [.obj [("input", .int 9)], .int 5]) ∧
    (Json.arr [.obj [("input", .int 9)], .int 5]).elem 0 = .ok (.obj [("input", .int 9)]) ∧
    getExprFromNode sampleEngine sampleCatalog (.obj [("input", .int 9)]) sampleTable
      ⟨[], 0⟩ = .error .checkFailed ∧
    (∃ f, translateBinOp sampleEngine sampleCatalog
        (.obj [("op", .str ">"), ("operands", .arr [.obj [("input", .int 9)], .int 5])])
        sampleTable ⟨[], 0⟩ = .error f ∧ f ≠ .undefinedBehavior ∧
      ∀ op_val, Json.FindMember "op" [("op", Json.str ">"),
          ("operands", .arr [.obj [("input", .int 9)], .int 5])] = some op_val →
        getExprFromNode sampleEngine sampleCatalog
          (.obj [("op", .str ">"), ("operands", .arr [.obj [("input", .int 9)], .int 5])])
          sampleTable ⟨[], 0⟩ = .error f) ∧
    ∃ f, translate_query sampleEngine sampleCatalog (fun _ => some unresolvedDoc) "" 0 =
      .error f ∧ f ≠ .undefinedBehavior :=
  ⟨by simp [Json.FindMember], rfl, sample_column9_fails,
    (translation_failure_propagates sampleEngine sampleCatalog
      [("op", .str ">"), ("operands", .arr [.obj [("input", .int 9)], .int 5])]
      (.arr [.obj [("input", .int 9)], .int 5]) (.obj [("input", .int 9)]) sampleTable ⟨[], 0⟩
      (fun _ => some unresolvedDoc) "" 0).1 (by simp [Json.FindMember]) (Or.inl rfl)
      ⟨_, _, sample_column9_fails⟩,
    (translation_failure_propagates sampleEngine sampleCatalog
      [("op", .str ">"), ("operands", .arr [.obj [("input", .int 9)], .int 5])]
      (.arr [.obj [("input", .int 9)], .int 5]) (.obj [("input", .int 9)]) sampleTable ⟨[], 0⟩
      (fun _ => some unresolvedDoc) "" 0).2 unresolvedDoc
      (.arr [sampleScan, .obj [("condition", .obj [("input", .int 9)])],
        .obj [("exprs", .arr [])], .obj [("aggs", .arr []), ("group", .arr [])]])
      sampleScan sampleTable (.obj [("input", .int 9)]) rfl rfl rfl
      sample_getTableFromScanNode (Or.inl ⟨_, rfl, rfl⟩) ⟨_, _, sample_column9_fails⟩⟩

end CalciteAdapter
